import Mathlib

/-!
Verification development for the PGC (Polyglot Cloud) Node.js interface
module.  The definitions below are a shallow embedding of the `Interface`
class (the session / reconciliation engine): JavaScript objects are ordered
association lists, the instance fields touched by the claims are record
fields, and every handler is a pure state transformer that additionally
returns the ordered list of its observable effects (published messages,
emitted events, log lines, timer operations).
-/

set_option maxRecDepth 8000

namespace Pgc

/-- Lookup of a property on a JavaScript object modelled as an ordered
association list; returns the first binding for the key. -/
def getKey {α : Type} : List (String × α) → String → Option α
  | [], _ => none
  | p :: rest, k => if p.1 == k then some p.2 else getKey rest k

/-- Property assignment `obj[k] = v`: overwrite the binding in place when
the key is present, otherwise append a new binding. -/
def setKey {α : Type} : List (String × α) → String → α → List (String × α)
  | [], k, v => [(k, v)]
  | p :: rest, k, v => if p.1 == k then (k, v) :: rest else p :: setKey rest k v

/-- The `delete obj[k]` operator. -/
def delKey {α : Type} : List (String × α) → String → List (String × α)
  | [], _ => []
  | p :: rest, k => if p.1 == k then delKey rest k else p :: delKey rest k

namespace Recon

/-- Values of the node properties copied by `_onConfig`, including the
coerced forms produced by its `propertyMapper` (a date for `timeAdded`,
a boolean for `profileNum`). -/
inductive PVal
  | str (s : String)
  | num (n : Int)
  | boolv (b : Bool)
  | date (ms : Nat)
deriving DecidableEq

/-- One entry of the `nodes` mapping of an incoming config snapshot:
`nodedefid`, `primary` and `name` are read by the node constructor, and
`props` holds the optional properties that `_onConfig` copies onto the
local node (`controller`, `drivers`, `isprimary`, `profileNum`,
`timeAdded`). -/
structure ConfigNode where
  nodedefid : String
  primary : String
  name : String
  props : List (String × PVal)
deriving DecidableEq

/-- A local device record stored in `this._nodes`.  `id`, `primary`,
`address` and `name` are set by the node constructor; `props` holds the
properties later overwritten from config snapshots.  `driversConverted`
marks that `convertDrivers()` ran.  (The `Node` class itself is not part
of the sources; only the fields the `Interface` code reads are modelled.) -/
structure DeviceNode where
  id : String
  primary : String
  address : String
  name : String
  driversConverted : Bool
  props : List (String × PVal)
deriving DecidableEq

/-- The configuration snapshot stored in `this._config`: the `nodes`
mapping, the `customParams` mapping, the two poll periods, and the
`newParamsDetected` flag that `_setParamsDetected` writes onto it.
`none` models an absent (`undefined`) field. -/
structure Config where
  nodes : List (String × ConfigNode)
  customParams : Option (List (String × String))
  shortPoll : Option Nat
  longPoll : Option Nat
  newParamsDetected : Bool
deriving DecidableEq

/-- The two polling cadence classes (`'short'` / `'long'`). -/
inductive PollClass
  | short
  | long
deriving DecidableEq

/-- The `Interface` instance fields used by the reconciliation engine,
message routing, polling and shutdown logic:  `_nodeClasses` (by their
`nodeDefId`), `_nodes`, `_config`, `_configCounter`, the
`shortPollValue`/`longPollValue`/`shortPollTimer`/`longPollTimer`
dynamic properties, and `_shuttingDown`.  An armed timer is recorded as
`some period` (the period `none` models the `NaN` delay obtained from an
unset value). -/
structure IState where
  nodeClasses : List String
  nodes : List (String × DeviceNode)
  config : Config
  configCounter : Nat
  shortPollValue : Option Nat
  longPollValue : Option Nat
  shortPollTimer : Option (Option Nat)
  longPollTimer : Option (Option Nat)
  shuttingDown : Bool
deriving DecidableEq

/-- Observable effects of the reconciliation / dispatch code:  emitted
events, published messages and log lines, in program order. -/
inductive Ev
  | logInvalidClass (address : String)
  | logRemoved (address : String)
  | clearTimer (poll : PollClass)
  | armTimer (poll : PollClass) (seconds : Option Nat)
  | emitConfig (isInitialConfig : Bool) (newParamsDetected : Bool)
  | logLoopSkip (counter : Nat)
  | sendConnected (connected : Bool)
  | mqttEnd
  | emitStop
  | emitDelete
  | emitPoll (isLongPoll : Bool)
  | emitOauth
  | logShuttingDownIgnored (messageKey : String)
  | routeResult
  | queueAdd (messageKey : String)
  | logInvalidMessage (messageKey : String)
  | emitMessageReceived
  | nodeDispatch (kind : String) (address : String)
  | logNodeNotFound (address : String)
  | sendReport (success : Bool)
deriving DecidableEq

/-- The node properties `_onConfig` copies from a snapshot entry onto the
local node object. -/
def updatableProps : List String :=
  ["controller", "drivers", "isprimary", "profileNum", "timeAdded"]

/-- `parseInt` restricted to the decimal timestamp strings PGC sends. -/
def jsParseInt (s : String) : Nat := (s.toNat?).getD 0

/-- The `propertyMapper` of `_onConfig`: `timeAdded` strings become date
values, `profileNum` strings become the boolean `val === 'true'`; every
other property is copied unchanged. -/
def propertyMapper (prop : String) (v : PVal) : PVal :=
  if prop = "timeAdded" then
    match v with
    | PVal.str s => PVal.date (jsParseInt s)
    | other => other
  else if prop = "profileNum" then
    match v with
    | PVal.str s => PVal.boolv (s == "true")
    | other => other
  else v

/-- The property-copy loop of `_onConfig`: for each updatable property
present in the snapshot entry, write its (possibly coerced) value onto
the node. -/
def applyPropsList (node : DeviceNode) (n : ConfigNode) : List String → DeviceNode
  | [] => node
  | prop :: rest =>
    match Pgc.getKey n.props prop with
    | some v =>
      applyPropsList { node with props := Pgc.setKey node.props prop (propertyMapper prop v) } n rest
    | none => applyPropsList node n rest

def applyProps (node : DeviceNode) (n : ConfigNode) : DeviceNode :=
  applyPropsList node n updatableProps

/-- The node-class constructor `new NodeClass(this, primary, address,
name)`; the class is identified by its `nodeDefId`. -/
def mkDeviceNode (nodedefid primary address name : String) : DeviceNode :=
  { id := nodedefid, primary := primary, address := address, name := name,
    driversConverted := false, props := [] }

/-- Modelled from the spec: `Node.convertDrivers()` (the `Node` class file
is not among the sources) normalizes ill-defined driver entries; here it
is observable only as a conversion mark on the record. -/
def convertDrivers (node : DeviceNode) : DeviceNode :=
  { node with driversConverted := true }

/-- One iteration of the `Object.keys(config.nodes).forEach` loop of
`_onConfig`:  create the node when unseen and its definition class is
registered (logging an error and skipping it otherwise), then copy the
updatable properties onto the (new or existing) node. -/
def nodesPassStep (classes : List String) (nodes : List (String × DeviceNode))
    (e : String × ConfigNode) : List (String × DeviceNode) × List Ev :=
  match Pgc.getKey nodes e.1 with
  | none =>
    if classes.contains e.2.nodedefid then
      let node := convertDrivers (mkDeviceNode e.2.nodedefid (e.2.primary.drop 5) e.1 e.2.name)
      (Pgc.setKey nodes e.1 (applyProps node e.2), [])
    else
      (nodes, [Ev.logInvalidClass e.1])
  | some node => (Pgc.setKey nodes e.1 (applyProps node e.2), [])

/-- The whole create/update pass of `_onConfig` over the snapshot's
`nodes` mapping, in key order. -/
def nodesPass (classes : List String) (nodes : List (String × DeviceNode)) :
    List (String × ConfigNode) → List (String × DeviceNode) × List Ev
  | [] => (nodes, [])
  | e :: rest =>
    let r := nodesPassStep classes nodes e
    let r2 := nodesPass classes r.1 rest
    (r2.1, r.2 ++ r2.2)

/-- The body of the removal loop of `_onConfig`: for every address of the
local registry (keys captured before any deletion) absent from the
snapshot, delete the record and log its removal. -/
def removalLoop (cfgNodes : List (String × ConfigNode))
    (acc : List (String × DeviceNode)) :
    List (String × DeviceNode) → List (String × DeviceNode) × List Ev
  | [] => (acc, [])
  | e :: rest =>
    match Pgc.getKey cfgNodes e.1 with
    | some _ => removalLoop cfgNodes acc rest
    | none =>
      let r := removalLoop cfgNodes (Pgc.delKey acc e.1) rest
      (r.1, Ev.logRemoved e.1 :: r.2)

/-- The removal pass of `_onConfig`.  The source guards the loop with
`Object.keys(config.nodes).length !== Object.keys(this._nodes).length`,
so the loop only runs when the two sizes differ. -/
def removalPass (cfgNodes : List (String × ConfigNode))
    (nodes : List (String × DeviceNode)) :
    List (String × DeviceNode) × List Ev :=
  if cfgNodes.length = nodes.length then (nodes, [])
  else removalLoop cfgNodes nodes nodes

/-- `_setParamsDetected`: the flag is the non-emptiness of the list of
new-config keys whose binding is absent from, or different in, the old
config's `customParams`. -/
def setParamsDetected (oldParams newParams : Option (List (String × String))) : Bool :=
  let oldP := oldParams.getD []
  let newP := newParams.getD []
  let oldConfigParamsKeys := oldP.map Prod.fst
  let newConfigParamsKeys := newP.map Prod.fst
  let changedParams := newConfigParamsKeys.filter (fun key =>
    !(oldConfigParamsKeys.contains key && Pgc.getKey oldP key == Pgc.getKey newP key))
  changedParams.length != 0

def pollValue (s : IState) : PollClass → Option Nat
  | PollClass.short => s.shortPollValue
  | PollClass.long => s.longPollValue

def pollTimer (s : IState) : PollClass → Option (Option Nat)
  | PollClass.short => s.shortPollTimer
  | PollClass.long => s.longPollTimer

def setPollValue (s : IState) (p : PollClass) (v : Option Nat) : IState :=
  match p with
  | PollClass.short => { s with shortPollValue := v }
  | PollClass.long => { s with longPollValue := v }

def setPollTimer (s : IState) (p : PollClass) (t : Option (Option Nat)) : IState :=
  match p with
  | PollClass.short => { s with shortPollTimer := t }
  | PollClass.long => { s with longPollTimer := t }

/-- `_checkPollingInterval(poll, newValue)`: when the stored value for the
class differs from the new one, log the change, clear the previously
armed timer when present, store the new value and arm a new repeating
timer at the new period — unconditionally, whatever the new period is. -/
def checkPollingInterval (s : IState) (poll : PollClass) (newValue : Option Nat) :
    IState × List Ev :=
  if pollValue s poll ≠ newValue then
    let clearEvs := match pollTimer s poll with
      | some _ => [Ev.clearTimer poll]
      | none => []
    let s1 := setPollValue s poll newValue
    let s2 := setPollTimer s1 poll (some newValue)
    (s2, clearEvs ++ [Ev.armTimer poll newValue])
  else (s, [])

/-- The tick callback of an armed poll timer: emit `'poll'` with the
cadence flag, unless the interface is shutting down. -/
def pollTick (s : IState) (isLongPoll : Bool) : List Ev :=
  if s.shuttingDown = false then [Ev.emitPoll isLongPoll] else []

/-- `_detectConfigLoop`: increment the counter (a decrement is scheduled
10 seconds later, see `configDecay`) and report whether it now exceeds
30. -/
def detectConfigLoop (s : IState) : IState × Bool :=
  let s1 := { s with configCounter := s.configCounter + 1 }
  (s1, decide (30 < s1.configCounter))

/-- The delayed `setTimeout` callback of `_detectConfigLoop`. -/
def configDecay (s : IState) : IState :=
  { s with configCounter := s.configCounter - 1 }

/-- `_onConfig(config, isInitialConfig)`: run the create/update pass and
the (guarded) removal pass over the registry, compute the
`newParamsDetected` flag, replace `this._config`, restart the two poll
timers from the snapshot's periods, then run loop detection; the
`'config'` event is emitted only when no loop is detected, otherwise an
error is logged.  Note the registry and config mutations happen before
the loop check. -/
def onConfig (s : IState) (config : Config) (isInitialConfig : Bool) :
    IState × List Ev :=
  let p1 := nodesPass s.nodeClasses s.nodes config.nodes
  let p2 := removalPass config.nodes p1.1
  let flag := setParamsDetected s.config.customParams config.customParams
  let config2 := { config with newParamsDetected := flag }
  let s1 := { s with nodes := p2.1, config := config2 }
  let r2 := checkPollingInterval s1 PollClass.short config.shortPoll
  let r3 := checkPollingInterval r2.1 PollClass.long config.longPoll
  let r4 := detectConfigLoop r3.1
  if r4.2 then
    (r4.1, p1.2 ++ p2.2 ++ r2.2 ++ r3.2 ++ [Ev.logLoopSkip r4.1.configCounter])
  else
    (r4.1, p1.2 ++ p2.2 ++ r2.2 ++ r3.2 ++ [Ev.emitConfig isInitialConfig flag])

/-- The public `stop()` method: publish `{connected:false}`, end the MQTT
client, and clear both poll timers.  It does not touch `_shuttingDown`. -/
def stop (s : IState) : IState × List Ev :=
  ({ s with shortPollTimer := none, longPollTimer := none },
   [Ev.sendConnected false, Ev.mqttEnd])

/-- The message keys routed to the sequential queue by `_onMessage`. -/
def queuedMessages : List String :=
  ["config", "query", "command", "status", "polls", "oauth",
   "startLogStream", "stopLogStream"]

/-- The benign identity echoes ignored by `_onMessage`. -/
def ignoredMessages : List String :=
  ["userId", "clientId", "id", "profileNum"]

/-- The per-key switch of `_onMessage`: `result` is dispatched immediately
to `_onResult`; `stop` and `delete` set `_shuttingDown` and emit their
event; the queued keys are added to the queue; ignored keys do nothing;
anything else logs a protocol error. -/
def onMessageKey (s : IState) (messageKey : String) : IState × List Ev :=
  if messageKey = "result" then (s, [Ev.routeResult])
  else if messageKey = "stop" then ({ s with shuttingDown := true }, [Ev.emitStop])
  else if messageKey = "delete" then ({ s with shuttingDown := true }, [Ev.emitDelete])
  else if queuedMessages.contains messageKey then (s, [Ev.queueAdd messageKey])
  else if ignoredMessages.contains messageKey then (s, [])
  else (s, [Ev.logInvalidMessage messageKey])

/-- `_onMessage`: emit `messageReceived`, then classify every key of the
envelope in order. -/
def onMessage (s : IState) : List String → IState × List Ev
  | [] => (s, [Ev.emitMessageReceived])
  | k :: rest =>
    let r := onMessageKey s k
    let r2 := onMessage r.1 rest
    (r2.1, r.2 ++ r2.2)

/-- A queued message as handed to `_onMessageQueued` (key plus the parts
of the payload the handler reads). -/
inductive QItem
  | configItem (c : Config)
  | queryItem (address : String)
  | statusItem (address : String)
  | commandItem (address : String) (requestId : Option String)
  | pollsItem (shortPoll longPoll : Option Nat)
  | oauthItem
deriving DecidableEq

def itemKey : QItem → String
  | QItem.configItem _ => "config"
  | QItem.queryItem _ => "query"
  | QItem.statusItem _ => "status"
  | QItem.commandItem _ _ => "command"
  | QItem.pollsItem _ _ => "polls"
  | QItem.oauthItem => "oauth"

/-- `getNode(address)` as used by the queued handlers: dispatch to the
node when it exists, otherwise log that it was not found. -/
def getNodeDispatch (s : IState) (kind address : String) : List Ev :=
  match Pgc.getKey s.nodes address with
  | some _ => [Ev.nodeDispatch kind address]
  | none => [Ev.logNodeNotFound address]

/-- `_onMessageQueued`: when not shutting down, run the handler for the
item's key (config reconciliation, node dispatch, poll-period update, or
the oauth event); when shutting down, log and drop the item. -/
def onMessageQueued (s : IState) (item : QItem) : IState × List Ev :=
  if s.shuttingDown = false then
    match item with
    | QItem.configItem c => onConfig s c false
    | QItem.queryItem address => (s, getNodeDispatch s "query" address)
    | QItem.statusItem address => (s, getNodeDispatch s "status" address)
    | QItem.commandItem address requestId =>
      match Pgc.getKey s.nodes address with
      | some _ =>
        let reportEvs := match requestId with
          | some _ => [Ev.sendReport true]
          | none => []
        (s, Ev.nodeDispatch "command" address :: reportEvs)
      | none => (s, [Ev.logNodeNotFound address])
    | QItem.pollsItem sp lp =>
      let s1 := { s with config := { s.config with shortPoll := sp, longPoll := lp } }
      let r1 := checkPollingInterval s1 PollClass.short sp
      let r2 := checkPollingInterval r1.1 PollClass.long lp
      (r2.1, r1.2 ++ r2.2)
    | QItem.oauthItem => (s, [Ev.emitOauth])
  else (s, [Ev.logShuttingDownIgnored (itemKey item)])

end Recon

namespace Ledger

/-- A JavaScript `Error` as used by `sendMessageAsync`: a message and a
`name` (default `'Error'`; the timeout handler overwrites it with
`'timeout'`). -/
structure JsErr where
  message : String
  name : String
deriving DecidableEq

/-- `new Error('Polyglot not connected')`. -/
def connError : JsErr := { message := "Polyglot not connected", name := "Error" }

/-- The error built by the timeout handler of `sendMessageAsync`; its
`name` is set to `'timeout'` so that callers can detect a timeout. -/
def timeoutError : JsErr :=
  { message := "Polyglot result message not received", name := "timeout" }

/-- A promise rejection value: `_onResult` rejects with the raw reason
string, while the connectivity and timeout paths reject with an `Error`. -/
inductive JsVal
  | str (s : String)
  | err (e : JsErr)
deriving DecidableEq

/-- The settlement state of one tracked promise. -/
inductive PStatus
  | pending
  | resolved (reason : String)
  | rejected (value : JsVal)
deriving DecidableEq

/-- Read a promise from the heap (indices out of range never occur in
reachable runs; the default is an arbitrary non-pending status). -/
def getP : List PStatus → Nat → PStatus
  | [], _ => PStatus.rejected (JsVal.err connError)
  | p :: _, 0 => p
  | _ :: rest, i + 1 => getP rest i

/-- Settle the promise at an index in the heap. -/
def setP : List PStatus → Nat → PStatus → List PStatus
  | [], _, _ => []
  | _ :: rest, 0, v => v :: rest
  | p :: rest, i + 1, v => p :: setP rest i v

/-- One invocation of `sendMessageAsync(key, message, timeout)`; `cid` is
a ghost identifier used to attribute published payloads in traces. -/
structure Call where
  cid : Nat
  key : String
  msg : String
  timeout : Nat
deriving DecidableEq

/-- The ledger state: the connection flag, the heap of promises created so
far (a promise is identified by its index), `_messageAsyncTracking` as a
map from key to the latest promise for that key, the calls currently
suspended on `await` of a prior promise (in arrival order, paired with
the promise they await), and the promises with an armed timeout. -/
structure LState where
  connected : Bool
  promises : List PStatus
  tracking : List (String × Nat)
  waiters : List (Nat × Call)
  timeoutArmed : List Nat
deriving DecidableEq

/-- Observable ledger events, in order: a payload published to the
transport, an immediate connectivity rejection, the settlement of a
promise, and the log lines of `_onResult`. -/
inductive Ev
  | published (cid : Nat) (msg : String)
  | rejectedNoConn (cid : Nat)
  | settled (pid : Nat)
  | logIsyResponse
  | logUnhandledResult (key : String)
deriving DecidableEq

/-- The part of `sendMessageAsync` after the `await` of a prior promise:
create the new tracker promise; inside its executor, publish the payload
and arm the timeout when connected, or reject immediately with a
connectivity error otherwise; finally store the tracker under the key. -/
def runBody (s : LState) (c : Call) : LState × List Ev :=
  let pid := s.promises.length
  if s.connected then
    ({ s with promises := s.promises ++ [PStatus.pending],
              tracking := Pgc.setKey s.tracking c.key pid,
              timeoutArmed :=
                if c.timeout != 0 then s.timeoutArmed ++ [pid] else s.timeoutArmed },
     [Ev.published c.cid c.msg])
  else
    ({ s with promises := s.promises ++ [PStatus.rejected (JsVal.err connError)],
              tracking := Pgc.setKey s.tracking c.key pid },
     [Ev.rejectedNoConn c.cid])

/-- Resume, in FIFO order, the calls whose awaited promise just settled
(their `catch` ignores the settlement result); each resumed call runs
the remainder of its body. -/
def runWaiters (s : LState) : List (Nat × Call) → LState × List Ev
  | [] => (s, [])
  | w :: ws =>
    let r := runBody s w.2
    let r2 := runWaiters r.1 ws
    (r2.1, r.2 ++ r2.2)

/-- Settle a promise: a JavaScript promise settles at most once, so this
is a no-op unless the promise is still pending; on settlement the calls
awaiting it resume in FIFO order. -/
def settleP (s : LState) (pid : Nat) (st : PStatus) : LState × List Ev :=
  if getP s.promises pid = PStatus.pending then
    let s1 := { s with promises := setP s.promises pid st }
    let r := runWaiters
      { s1 with waiters := s1.waiters.filter (fun w => !(w.1 == pid)) }
      (s1.waiters.filter (fun w => w.1 == pid))
    (r.1, Ev.settled pid :: r.2)
  else (s, [])

/-- One nested entry of a `result` envelope (the fields `_onResult`
reads). -/
structure ResultEntry where
  address : String
  success : Bool
  reason : String
deriving DecidableEq

def trackedCommands : List String := ["addnode"]

def resultIgnoredKeys : List String :=
  ["removenode", "profileNum", "statusCode", "seq", "elapsed", "status"]

/-- One iteration of the `Object.keys(messageContent).forEach` loop of
`_onResult`: for a tracked command, find the tracked request under
`key + '-' + address` and resolve or reject it with the reason (nothing
happens when no request is tracked); `isyresponse` is logged; the known
side-channel keys are skipped; anything else is logged as an unhandled
result. -/
def onResultKey (s : LState) (key : String) (entry : ResultEntry) : LState × List Ev :=
  if trackedCommands.contains key then
    match Pgc.getKey s.tracking (key ++ "-" ++ entry.address) with
    | some pid =>
      if entry.success then settleP s pid (PStatus.resolved entry.reason)
      else settleP s pid (PStatus.rejected (JsVal.str entry.reason))
    | none => (s, [])
  else if key = "isyresponse" then (s, [Ev.logIsyResponse])
  else if resultIgnoredKeys.contains key then (s, [])
  else (s, [Ev.logUnhandledResult key])

/-- `_onResult` over the whole `result` payload, key by key. -/
def onResult (s : LState) : List (String × ResultEntry) → LState × List Ev
  | [] => (s, [])
  | kv :: rest =>
    let r := onResultKey s kv.1 kv.2
    let r2 := onResult r.1 rest
    (r2.1, r.2 ++ r2.2)

/-- External stimuli of the ledger: a `sendMessageAsync` call, an inbound
`result` envelope, and the firing of an armed timeout. -/
inductive Act
  | call (c : Call)
  | result (content : List (String × ResultEntry))
  | timeoutFire (pid : Nat)
deriving DecidableEq

/-- One stimulus.  A call finding a pending tracked promise for its key
suspends on `await` of that promise (publishing nothing yet); otherwise
(no tracker, or an already settled one) its body runs at once.  A firing
timeout rejects its promise with the timeout error (a no-op when the
promise already settled). -/
def step (s : LState) : Act → LState × List Ev
  | Act.call c =>
    match Pgc.getKey s.tracking c.key with
    | some pid =>
      if getP s.promises pid = PStatus.pending then
        ({ s with waiters := s.waiters ++ [(pid, c)] }, [])
      else runBody s c
    | none => runBody s c
  | Act.result content => onResult s content
  | Act.timeoutFire pid =>
    if s.timeoutArmed.contains pid then
      settleP s pid (PStatus.rejected (JsVal.err timeoutError))
    else (s, [])

/-- Run a sequence of stimuli, concatenating the event traces. -/
def run (s : LState) : List Act → LState × List Ev
  | [] => (s, [])
  | a :: as =>
    let r := step s a
    let r2 := run r.1 as
    (r2.1, r.2 ++ r2.2)

/-- Is this event a publish attributed to the given call? -/
def pubOf (cid : Nat) (e : Ev) : Bool :=
  match e with
  | Ev.published c _ => c == cid
  | _ => false

/-- No publish of the given call occurs in the trace. -/
def noPubCid (cid : Nat) (tr : List Ev) : Bool :=
  tr.all (fun e => !pubOf cid e)

/-- Every publish of the given call in the trace is strictly preceded by
the settlement event of the given promise (i.e. no such publish occurs
before the first `settled pid`). -/
def noPubBeforeSettle (cid pid : Nat) : List Ev → Bool
  | [] => true
  | e :: tr =>
    if e = Ev.settled pid then true
    else !pubOf cid e && noPubBeforeSettle cid pid tr

/-- Invariant carried through a run: the watched promise is still pending,
and every suspended call bearing the watched ghost id awaits exactly that
promise. -/
def AInv (cid pid : Nat) (s : LState) : Prop :=
  getP s.promises pid = PStatus.pending ∧
  ∀ w ∈ s.waiters, w.2.cid = cid → w.1 = pid

/-- Disjunctive step outcome: either the watched promise is still pending
(and the segment published nothing for the watched call and did not
settle the promise), or the promise settled inside the segment and no
watched publish precedes that settlement. -/
def StepOut (cid pid : Nat) (s : LState) (tr : List Ev) : Prop :=
  (AInv cid pid s ∧ noPubCid cid tr = true ∧ Ev.settled pid ∉ tr)
  ∨ (noPubBeforeSettle cid pid tr = true ∧ Ev.settled pid ∈ tr)

/-- Number of pending (in-flight) requests in the heap. -/
def pendingCount (s : LState) : Nat :=
  s.promises.countP (fun p => p == PStatus.pending)

end Ledger

namespace JsSem

/-- The fields of a node object read by `addNode` / `delNode`. -/
structure NodeObj where
  address : String
  name : String
  id : String
  primary : String
  isController : Bool
  drivers : List String
  hint : Option String
  driversConverted : Bool
deriving DecidableEq

/-- The JavaScript values an argument of `addNode` / `delNode` can take:
primitives, an instance of the `Node` class (or a subclass), or an
object of some unrelated class that still carries the node-shaped
fields. -/
inductive JsValue
  | undef
  | nullv
  | boolv (b : Bool)
  | numv (n : Int)
  | strv (s : String)
  | nodeInstance (o : NodeObj)
  | foreignObj (o : NodeObj)
deriving DecidableEq

/-- JavaScript truthiness. -/
def truthy : JsValue → Bool
  | JsValue.undef => false
  | JsValue.nullv => false
  | JsValue.boolv b => b
  | JsValue.numv n => n != 0
  | JsValue.strv s => s != ""
  | JsValue.nodeInstance _ => true
  | JsValue.foreignObj _ => true

/-- The `!` operator: negation of truthiness, yielding a boolean. -/
def jsNot (v : JsValue) : JsValue := JsValue.boolv (!truthy v)

/-- `v instanceof Node`: true exactly for instances of the `Node` class
(or its subclasses); primitives — booleans in particular — are never
instances. -/
def instanceofNode : JsValue → Bool
  | JsValue.nodeInstance _ => true
  | _ => false

/-- The node-shaped data of a value, when it has the node fields. -/
def isNodeShaped : JsValue → Option NodeObj
  | JsValue.nodeInstance o => some o
  | JsValue.foreignObj o => some o
  | _ => none

/-- Modelled from the spec: `Node.convertDrivers()` on the node object
(the `Node` class file is not among the sources). -/
def convertDriversObj (o : NodeObj) : NodeObj := { o with driversConverted := true }

/-- The `addnode` message body built by `addNode`. -/
structure AddNodeMsg where
  address : String
  name : String
  nodedefid : String
  primary : String
  isController : Bool
  drivers : List String
  hint : Option String
deriving DecidableEq

inductive AddNodeOutcome
  | loggedError
  | sent (key : String) (msg : AddNodeMsg)
  | threw
deriving DecidableEq

/-- `addNode(node)`.  The guard is written `if (!node instanceof Node)` in
the source, which parses as `(!node) instanceof Node`: the error branch
tests whether a boolean is a `Node` instance.  Otherwise the drivers are
converted, the `addnode` message is built (with the `hint` only when it
is a truthy string) and handed to `sendMessageAsync` under the key
`'addnode-' + node.address`. -/
def addNode (node : JsValue) : AddNodeOutcome :=
  if truthy (JsValue.boolv (instanceofNode (jsNot node))) then AddNodeOutcome.loggedError
  else
    match isNodeShaped node with
    | some o =>
      let o2 := convertDriversObj o
      let msg : AddNodeMsg :=
        { address := o2.address, name := o2.name, nodedefid := o2.id,
          primary := o2.primary, isController := o2.isController,
          drivers := o2.drivers,
          hint := match o2.hint with
            | some h => if h != "" then some h else none
            | none => none }
      AddNodeOutcome.sent ("addnode-" ++ o2.address) msg
    | none => AddNodeOutcome.threw

inductive DelNodeOutcome
  | loggedError
  | sent (address : Option String)
  | threw
deriving DecidableEq

/-- Property access `v.address`: the node fields for node-shaped objects,
`undefined` (inner `none`) for other primitives, and a thrown
`TypeError` (outer `none`) on `null`/`undefined`. -/
def jsFieldAddress : JsValue → Option (Option String)
  | JsValue.undef => none
  | JsValue.nullv => none
  | JsValue.nodeInstance o => some (some o.address)
  | JsValue.foreignObj o => some (some o.address)
  | _ => some none

/-- `delNode(node)`: same ineffective guard as `addNode`; otherwise the
`{removenode: {address: node.address}}` message is built and handed to
`sendMessage`. -/
def delNode (node : JsValue) : DelNodeOutcome :=
  if truthy (JsValue.boolv (instanceofNode (jsNot node))) then DelNodeOutcome.loggedError
  else
    match jsFieldAddress node with
    | some a => DelNodeOutcome.sent a
    | none => DelNodeOutcome.threw

end JsSem

/-- An empty configuration (used by the concrete scenarios below). -/
def emptyConfig : Recon.Config :=
  { nodes := [], customParams := none, shortPoll := none, longPoll := none,
    newParamsDetected := false }

/-- A base interface state: no registered classes, no nodes, no armed
timers, loop counter at zero. -/
def baseState : Recon.IState :=
  { nodeClasses := [], nodes := [], config := emptyConfig, configCounter := 0,
    shortPollValue := none, longPollValue := none,
    shortPollTimer := none, longPollTimer := none, shuttingDown := false }

/-- Scenario for the loop guard: thirty snapshots already arrived inside
the decay window, class `D1` is registered, and the registry is empty. -/
def c1State : Recon.IState :=
  { baseState with nodeClasses := ["D1"], configCounter := 30 }

/-- The snapshot entry of the 31st snapshot: a node of the registered
class `D1`. -/
def c1Node : Recon.ConfigNode :=
  { nodedefid := "D1", primary := "n001_a1", name := "X", props := [] }

/-- The 31st snapshot: one node of the registered class `D1`. -/
def c1Snapshot : Recon.Config :=
  { emptyConfig with nodes := [("a1", c1Node)] }

/-- A device record for address `a1`. -/
def c4Dev : Recon.DeviceNode :=
  { id := "D1", primary := "a1", address := "a1", name := "X",
    driversConverted := true, props := [] }

/-- Scenario for the removal guard: the registry holds `a1`. -/
def c4State : Recon.IState :=
  { baseState with nodeClasses := ["D1"], nodes := [("a1", c4Dev)] }

/-- A snapshot that no longer contains `a1` but contains one address whose
definition class `D2` is not registered (so it is skipped at creation,
leaving the snapshot size equal to the registry size). -/
def c4Snapshot : Recon.Config :=
  { emptyConfig with
    nodes := [("b2", { nodedefid := "D2", primary := "n001_b2", name := "Y", props := [] })] }

/-- An empty ledger on a live connection. -/
def ledgerInit : Ledger.LState :=
  { connected := true, promises := [], tracking := [], waiters := [], timeoutArmed := [] }

/-- A `sendMessageAsync` invocation for key `addnode-a1` with the default
timeout. -/
def mkCall (cid : Nat) (msg : String) : Ledger.Call :=
  { cid := cid, key := "addnode-a1", msg := msg, timeout := 15000 }

/-- Three overlapping correlated sends for the same key, then the result
for the first one arrives. -/
def c2acts : List Ledger.Act :=
  [Ledger.Act.call (mkCall 1 "m1"), Ledger.Act.call (mkCall 2 "m2"),
   Ledger.Act.call (mkCall 3 "m3"),
   Ledger.Act.result [("addnode", { address := "a1", success := true, reason := "ok" })]]

/-- One correlated send whose timeout then fires. -/
def c3acts : List Ledger.Act :=
  [Ledger.Act.call (mkCall 1 "m1"), Ledger.Act.timeoutFire 0]

/-- The ledger right after one correlated send for `addnode-a1` on a live
connection: one pending tracked promise with an armed timeout. -/
def pendingOne : Ledger.LState :=
  { connected := true, promises := [Ledger.PStatus.pending],
    tracking := [("addnode-a1", 0)], waiters := [], timeoutArmed := [0] }

/-- An empty ledger with the connection down. -/
def disconnectedInit : Ledger.LState :=
  { connected := false, promises := [], tracking := [], waiters := [], timeoutArmed := [] }

/-! Association-list lemmas. -/

theorem getKey_setKey_self {α : Type} (m : List (String × α)) (k : String) (v : α) :
    getKey (setKey m k v) k = some v := by
  induction m with
  | nil => simp [getKey, setKey]
  | cons p rest ih =>
    by_cases h : p.1 = k
    · simp [getKey, setKey, h]
    · simp [getKey, setKey, h, ih]

theorem getKey_setKey_ne {α : Type} (m : List (String × α)) (k k' : String) (v : α)
    (h : ¬ k' = k) : getKey (setKey m k v) k' = getKey m k' := by
  have h2 : ¬ k = k' := fun hh => h hh.symm
  induction m with
  | nil => simp [getKey, setKey, h2]
  | cons p rest ih =>
    by_cases hp : p.1 = k
    · simp [getKey, setKey, hp, h2]
    · by_cases hp' : p.1 = k'
      · simp [getKey, setKey, hp, hp', h]
      · simp [getKey, setKey, hp, hp', ih]

theorem getKey_delKey_ne {α : Type} (m : List (String × α)) (k k' : String)
    (h : ¬ k' = k) : getKey (delKey m k) k' = getKey m k' := by
  have h2 : ¬ k = k' := fun hh => h hh.symm
  induction m with
  | nil => simp [getKey, delKey]
  | cons p rest ih =>
    by_cases hp : p.1 = k
    · have hp' : ¬ p.1 = k' := by
        intro hh
        exact h (hh ▸ hp)
      simp [getKey, delKey, hp, hp', h2, ih]
    · by_cases hp' : p.1 = k'
      · simp [getKey, delKey, hp, hp', h]
      · simp [getKey, delKey, hp, hp', ih]

theorem isSome_getKey_setKey {α : Type} (m : List (String × α)) (k k' : String) (v : α)
    (h : (getKey m k').isSome = true) : (getKey (setKey m k v) k').isSome = true := by
  by_cases hk : k' = k
  · subst hk
    rw [getKey_setKey_self]
    rfl
  · rw [getKey_setKey_ne m k k' v hk]
    exact h

theorem isSome_getKey_of_mem {α : Type} {m : List (String × α)} {k : String} {v : α}
    (h : (k, v) ∈ m) : (getKey m k).isSome = true := by
  induction m with
  | nil => cases h
  | cons p rest ih =>
    rcases List.mem_cons.mp h with h1 | h1
    · simp [getKey, ← h1]
    · by_cases hp : p.1 = k
      · simp [getKey, hp]
      · simp [getKey, hp, ih h1]

theorem mem_keys_iff_isSome {α : Type} (m : List (String × α)) (k : String) :
    k ∈ m.map Prod.fst ↔ (getKey m k).isSome = true := by
  induction m with
  | nil => simp [getKey]
  | cons p rest ih =>
    by_cases h : p.1 = k
    · simp [getKey, h]
    · have h' : ¬ k = p.1 := fun hh => h hh.symm
      simp [getKey, h, h', ih]

theorem getKey_of_mem_nodup {α : Type} {m : List (String × α)} {k : String} {v : α}
    (hnodup : (m.map Prod.fst).Nodup) (h : (k, v) ∈ m) : getKey m k = some v := by
  induction m with
  | nil => cases h
  | cons p rest ih =>
    rw [List.map_cons] at hnodup
    have hsplit := List.nodup_cons.mp hnodup
    rcases List.mem_cons.mp h with h1 | h1
    · simp [getKey, ← h1]
    · have hk : k ∈ rest.map Prod.fst := List.mem_map.mpr ⟨(k, v), h1, rfl⟩
      have hp : ¬ p.1 = k := by
        intro hh
        exact hsplit.1 (hh ▸ hk)
      simp [getKey, hp, ih hsplit.2 h1]

theorem filter_length_ne_zero_iff {α : Type} (l : List α) (p : α → Bool) :
    ((l.filter p).length != 0) = true ↔ ∃ x ∈ l, p x = true := by
  induction l with
  | nil => simp
  | cons a l ih =>
    by_cases h : p a
    · simp [List.filter_cons, h]
    · simp only [List.filter_cons, h]
      simp only [Bool.false_eq_true, if_false]
      rw [ih]
      constructor
      · rintro ⟨x, hx, hpx⟩
        exact ⟨x, List.mem_cons_of_mem a hx, hpx⟩
      · rintro ⟨x, hx, hpx⟩
        rcases List.mem_cons.mp hx with h1 | h1
        · exact absurd (h1 ▸ hpx) (by simpa using h)
        · exact ⟨x, h1, hpx⟩

theorem contains_eq_true_of_mem {α : Type} [BEq α] [LawfulBEq α] {l : List α} {a : α}
    (h : a ∈ l) : l.contains a = true := by
  induction l with
  | nil => cases h
  | cons x xs ih =>
    rcases List.mem_cons.mp h with h1 | h1 <;>
      simp [List.contains_cons, h1, ih]

/-! Ledger lemmas: unfolding equations, promise-heap lemmas, and the
trace-ordering lemmas behind the per-key publish discipline. -/

theorem runWaiters_cons (s : Ledger.LState) (w : Nat × Ledger.Call)
    (ws : List (Nat × Ledger.Call)) :
    Ledger.runWaiters s (w :: ws) =
      ((Ledger.runWaiters (Ledger.runBody s w.2).1 ws).1,
       (Ledger.runBody s w.2).2 ++ (Ledger.runWaiters (Ledger.runBody s w.2).1 ws).2) := rfl

theorem onResult_cons (s : Ledger.LState) (kv : String × Ledger.ResultEntry)
    (rest : List (String × Ledger.ResultEntry)) :
    Ledger.onResult s (kv :: rest) =
      ((Ledger.onResult (Ledger.onResultKey s kv.1 kv.2).1 rest).1,
       (Ledger.onResultKey s kv.1 kv.2).2
         ++ (Ledger.onResult (Ledger.onResultKey s kv.1 kv.2).1 rest).2) := rfl

theorem run_cons (s : Ledger.LState) (a : Ledger.Act) (as : List Ledger.Act) :
    Ledger.run s (a :: as) =
      ((Ledger.run (Ledger.step s a).1 as).1,
       (Ledger.step s a).2 ++ (Ledger.run (Ledger.step s a).1 as).2) := rfl

theorem noPubCid_append (cid : Nat) (a b : List Ledger.Ev) :
    Ledger.noPubCid cid (a ++ b) = (Ledger.noPubCid cid a && Ledger.noPubCid cid b) := by
  simp [Ledger.noPubCid, List.all_append]

theorem nPBS_of_noPubCid (cid pid : Nat) (tr : List Ledger.Ev)
    (h : Ledger.noPubCid cid tr = true) :
    Ledger.noPubBeforeSettle cid pid tr = true := by
  induction tr with
  | nil => rfl
  | cons e tr ih =>
    rw [Ledger.noPubCid, List.all_cons, Bool.and_eq_true] at h
    by_cases he : e = Ledger.Ev.settled pid
    · simp [Ledger.noPubBeforeSettle, he]
    · simp only [Ledger.noPubBeforeSettle, he, if_false]
      rw [Bool.and_eq_true]
      exact ⟨h.1, ih h.2⟩

theorem nPBS_append_left_clean (cid pid : Nat) (a b : List Ledger.Ev)
    (h1 : Ledger.noPubCid cid a = true) (h2 : Ledger.Ev.settled pid ∉ a)
    (h3 : Ledger.noPubBeforeSettle cid pid b = true) :
    Ledger.noPubBeforeSettle cid pid (a ++ b) = true := by
  induction a with
  | nil => simpa using h3
  | cons e a ih =>
    have he : ¬ e = Ledger.Ev.settled pid := fun hh => h2 (by rw [hh]; exact List.mem_cons_self _ _)
    rw [Ledger.noPubCid, List.all_cons, Bool.and_eq_true] at h1
    have h2' : Ledger.Ev.settled pid ∉ a := fun hh => h2 (List.mem_cons_of_mem _ hh)
    simp only [List.cons_append, Ledger.noPubBeforeSettle, he, if_false]
    rw [Bool.and_eq_true]
    exact ⟨h1.1, ih h1.2 h2'⟩

theorem nPBS_append_right_reached (cid pid : Nat) (a b : List Ledger.Ev)
    (h1 : Ledger.noPubBeforeSettle cid pid a = true) (h2 : Ledger.Ev.settled pid ∈ a) :
    Ledger.noPubBeforeSettle cid pid (a ++ b) = true := by
  induction a with
  | nil => cases h2
  | cons e a ih =>
    by_cases he : e = Ledger.Ev.settled pid
    · simp [Ledger.noPubBeforeSettle, he]
    · have h2' : Ledger.Ev.settled pid ∈ a := by
        rcases List.mem_cons.mp h2 with hh | hh
        · exact absurd hh.symm he
        · exact hh
      rw [Ledger.noPubBeforeSettle, if_neg he, Bool.and_eq_true] at h1
      simp only [List.cons_append, Ledger.noPubBeforeSettle, he, if_false]
      rw [Bool.and_eq_true]
      exact ⟨h1.1, ih h1.2 h2'⟩

theorem getP_append_left (l ext : List Ledger.PStatus) (i : Nat) (h : i < l.length) :
    Ledger.getP (l ++ ext) i = Ledger.getP l i := by
  induction l generalizing i with
  | nil => cases h
  | cons p rest ih =>
    cases i with
    | zero => rfl
    | succ n => exact ih n (Nat.lt_of_succ_lt_succ h)

theorem getP_pending_lt (l : List Ledger.PStatus) (i : Nat)
    (h : Ledger.getP l i = Ledger.PStatus.pending) : i < l.length := by
  induction l generalizing i with
  | nil => simp [Ledger.getP] at h
  | cons p rest ih =>
    cases i with
    | zero => exact Nat.succ_pos _
    | succ n => exact Nat.succ_lt_succ (ih n h)

theorem setP_length (l : List Ledger.PStatus) (i : Nat) (v : Ledger.PStatus) :
    (Ledger.setP l i v).length = l.length := by
  induction l generalizing i with
  | nil => rfl
  | cons p rest ih => cases i <;> simp [Ledger.setP, ih]

theorem getP_setP_self (l : List Ledger.PStatus) (i : Nat) (v : Ledger.PStatus)
    (h : i < l.length) : Ledger.getP (Ledger.setP l i v) i = v := by
  induction l generalizing i with
  | nil => cases h
  | cons p rest ih =>
    cases i with
    | zero => rfl
    | succ n => exact ih n (Nat.lt_of_succ_lt_succ h)

theorem getP_setP_ne (l : List Ledger.PStatus) (i j : Nat) (v : Ledger.PStatus)
    (h : ¬ j = i) : Ledger.getP (Ledger.setP l i v) j = Ledger.getP l j := by
  induction l generalizing i j with
  | nil => rfl
  | cons p rest ih =>
    cases i with
    | zero =>
      cases j with
      | zero => exact absurd rfl h
      | succ m => rfl
    | succ n =>
      cases j with
      | zero => rfl
      | succ m => exact ih n m (fun hh => h (by rw [hh]))

theorem runBody_waiters (s : Ledger.LState) (c : Ledger.Call) :
    (Ledger.runBody s c).1.waiters = s.waiters := by
  unfold Ledger.runBody
  split <;> rfl

theorem runBody_promises (s : Ledger.LState) (c : Ledger.Call) :
    ∃ x, (Ledger.runBody s c).1.promises = s.promises ++ [x] := by
  unfold Ledger.runBody
  split
  · exact ⟨_, rfl⟩
  · exact ⟨_, rfl⟩

theorem runBody_evs (s : Ledger.LState) (c : Ledger.Call) :
    (Ledger.runBody s c).2 = [Ledger.Ev.published c.cid c.msg]
    ∨ (Ledger.runBody s c).2 = [Ledger.Ev.rejectedNoConn c.cid] := by
  unfold Ledger.runBody
  split
  · exact Or.inl rfl
  · exact Or.inr rfl

theorem runBody_AInv {cid pid : Nat} {s : Ledger.LState} (c : Ledger.Call)
    (h : Ledger.AInv cid pid s) : Ledger.AInv cid pid (Ledger.runBody s c).1 := by
  obtain ⟨hp, hw⟩ := h
  obtain ⟨x, hx⟩ := runBody_promises s c
  constructor
  · rw [hx, getP_append_left _ _ _ (getP_pending_lt _ _ hp)]
    exact hp
  · rw [runBody_waiters]
    exact hw

theorem runWaiters_waiters (s : Ledger.LState) (ws : List (Nat × Ledger.Call)) :
    (Ledger.runWaiters s ws).1.waiters = s.waiters := by
  induction ws generalizing s with
  | nil => rfl
  | cons w ws ih =>
    rw [runWaiters_cons]
    show (Ledger.runWaiters (Ledger.runBody s w.2).1 ws).1.waiters = s.waiters
    rw [ih, runBody_waiters]

theorem runWaiters_promises (s : Ledger.LState) (ws : List (Nat × Ledger.Call)) :
    ∃ ext, (Ledger.runWaiters s ws).1.promises = s.promises ++ ext := by
  induction ws generalizing s with
  | nil => exact ⟨[], by simp [Ledger.runWaiters]⟩
  | cons w ws ih =>
    obtain ⟨x, hx⟩ := runBody_promises s w.2
    obtain ⟨ext, hext⟩ := ih (Ledger.runBody s w.2).1
    refine ⟨[x] ++ ext, ?_⟩
    rw [runWaiters_cons]
    show (Ledger.runWaiters (Ledger.runBody s w.2).1 ws).1.promises = _
    rw [hext, hx, List.append_assoc]

theorem runWaiters_evs (s : Ledger.LState) (ws : List (Nat × Ledger.Call)) :
    ∀ e ∈ (Ledger.runWaiters s ws).2, ∃ w ∈ ws,
      e = Ledger.Ev.published w.2.cid w.2.msg ∨ e = Ledger.Ev.rejectedNoConn w.2.cid := by
  induction ws generalizing s with
  | nil => intro e he; simp [Ledger.runWaiters] at he
  | cons w ws ih =>
    intro e he
    rw [runWaiters_cons] at he
    rcases List.mem_append.mp he with h1 | h1
    · refine ⟨w, List.mem_cons_self _ _, ?_⟩
      rcases runBody_evs s w.2 with h2 | h2 <;> rw [h2] at h1 <;>
        rcases List.mem_singleton.mp h1 with rfl
      · exact Or.inl rfl
      · exact Or.inr rfl
    · obtain ⟨w', hw', h2⟩ := ih _ e h1
      exact ⟨w', List.mem_cons_of_mem _ hw', h2⟩

theorem runWaiters_AInv {cid pid : Nat} (ws : List (Nat × Ledger.Call))
    (s : Ledger.LState) (h : Ledger.AInv cid pid s) :
    Ledger.AInv cid pid (Ledger.runWaiters s ws).1 := by
  induction ws generalizing s with
  | nil => exact h
  | cons w ws ih =>
    rw [runWaiters_cons]
    exact ih _ (runBody_AInv w.2 h)

theorem settleP_pending_eq (s : Ledger.LState) (pid : Nat) (st : Ledger.PStatus)
    (h : Ledger.getP s.promises pid = Ledger.PStatus.pending) :
    Ledger.settleP s pid st =
      ((Ledger.runWaiters
          { s with promises := Ledger.setP s.promises pid st,
                   waiters := s.waiters.filter (fun w => !(w.1 == pid)) }
          (s.waiters.filter (fun w => w.1 == pid))).1,
       Ledger.Ev.settled pid ::
         (Ledger.runWaiters
           { s with promises := Ledger.setP s.promises pid st,
                    waiters := s.waiters.filter (fun w => !(w.1 == pid)) }
           (s.waiters.filter (fun w => w.1 == pid))).2) := by
  unfold Ledger.settleP
  rw [if_pos h]

theorem settleP_not_pending (s : Ledger.LState) (pid : Nat) (st : Ledger.PStatus)
    (h : ¬ Ledger.getP s.promises pid = Ledger.PStatus.pending) :
    Ledger.settleP s pid st = (s, []) := by
  unfold Ledger.settleP
  rw [if_neg h]

theorem settleP_getP_self (s : Ledger.LState) (pid : Nat) (st : Ledger.PStatus)
    (hpend : Ledger.getP s.promises pid = Ledger.PStatus.pending) :
    Ledger.getP (Ledger.settleP s pid st).1.promises pid = st := by
  rw [settleP_pending_eq s pid st hpend]
  obtain ⟨ext, hext⟩ := runWaiters_promises
    { s with promises := Ledger.setP s.promises pid st,
             waiters := s.waiters.filter (fun w => !(w.1 == pid)) }
    (s.waiters.filter (fun w => w.1 == pid))
  show Ledger.getP (Ledger.runWaiters _ _).1.promises pid = st
  rw [hext]
  show Ledger.getP (Ledger.setP s.promises pid st ++ ext) pid = st
  have hlt : pid < (Ledger.setP s.promises pid st).length := by
    rw [setP_length]
    exact getP_pending_lt _ _ hpend
  rw [getP_append_left _ _ _ hlt]
  exact getP_setP_self _ _ _ (getP_pending_lt _ _ hpend)

theorem stepOut_compose {cid pid : Nat} {s1 s2 : Ledger.LState} {e1 e2 : List Ledger.Ev}
    (h1 : Ledger.StepOut cid pid s1 e1)
    (h2 : Ledger.AInv cid pid s1 → Ledger.StepOut cid pid s2 e2) :
    Ledger.StepOut cid pid s2 (e1 ++ e2) := by
  rcases h1 with ⟨hA1, hnc1, hns1⟩ | ⟨hb1, hm1⟩
  · rcases h2 hA1 with ⟨hA2, hnc2, hns2⟩ | ⟨hb2, hm2⟩
    · left
      refine ⟨hA2, ?_, ?_⟩
      · rw [noPubCid_append, hnc1, hnc2]
        rfl
      · intro hmem
        rcases List.mem_append.mp hmem with h | h
        · exact hns1 h
        · exact hns2 h
    · right
      exact ⟨nPBS_append_left_clean _ _ _ _ hnc1 hns1 hb2, List.mem_append.mpr (Or.inr hm2)⟩
  · right
    exact ⟨nPBS_append_right_reached _ _ _ _ hb1 hm1, List.mem_append.mpr (Or.inl hm1)⟩

theorem settleP_stepOut {cid pid : Nat} (s : Ledger.LState) (pid' : Nat)
    (st : Ledger.PStatus) (hA : Ledger.AInv cid pid s) :
    Ledger.StepOut cid pid (Ledger.settleP s pid' st).1 (Ledger.settleP s pid' st).2 := by
  by_cases hpp : pid' = pid
  · subst hpp
    rw [settleP_pending_eq s pid' st hA.1]
    right
    exact ⟨by simp [Ledger.noPubBeforeSettle], List.mem_cons_self _ _⟩
  · by_cases hg : Ledger.getP s.promises pid' = Ledger.PStatus.pending
    · rw [settleP_pending_eq s pid' st hg]
      left
      refine ⟨?_, ?_, ?_⟩
      · -- the watched promise stays pending and the waiter invariant survives
        refine ⟨?_, ?_⟩
        · obtain ⟨ext, hext⟩ := runWaiters_promises
            { s with promises := Ledger.setP s.promises pid' st,
                     waiters := s.waiters.filter (fun w => !(w.1 == pid')) }
            (s.waiters.filter (fun w => w.1 == pid'))
          show Ledger.getP (Ledger.runWaiters _ _).1.promises pid = Ledger.PStatus.pending
          rw [hext]
          show Ledger.getP (Ledger.setP s.promises pid' st ++ ext) pid = Ledger.PStatus.pending
          have hlt : pid < (Ledger.setP s.promises pid' st).length := by
            rw [setP_length]
            exact getP_pending_lt _ _ hA.1
          rw [getP_append_left _ _ _ hlt]
          rw [getP_setP_ne _ _ _ _ (fun hh => hpp hh.symm)]
          exact hA.1
        · intro w hw hwc
          rw [runWaiters_waiters] at hw
          exact hA.2 w (List.mem_filter.mp hw).1 hwc
      · -- no publish for the watched call in this segment
        rw [Ledger.noPubCid, List.all_cons]
        rw [Bool.and_eq_true]
        refine ⟨rfl, ?_⟩
        rw [List.all_eq_true]
        intro e he
        obtain ⟨w, hwmem, hsh⟩ := runWaiters_evs _ _ e he
        have hw1 : (w.1 == pid') = true := (List.mem_filter.mp hwmem).2
        have hwS : w ∈ s.waiters := (List.mem_filter.mp hwmem).1
        have hwcid : ¬ w.2.cid = cid := by
          intro hh
          have hp1 : w.1 = pid := hA.2 w hwS hh
          have hp2 : w.1 = pid' := by simpa using hw1
          exact hpp (hp2 ▸ hp1)
        rcases hsh with h | h <;> rw [h] <;> simp [Ledger.pubOf, hwcid]
      · -- the watched settlement is not in this segment
        intro hmem
        rcases List.mem_cons.mp hmem with h | h
        · exact hpp (by injection h.symm)
        · obtain ⟨w, _, hsh⟩ := runWaiters_evs _ _ _ h
          rcases hsh with hh | hh <;> cases hh
    · rw [settleP_not_pending s pid' st hg]
      left
      exact ⟨hA, rfl, by simp⟩

theorem onResultKey_stepOut {cid pid : Nat} (s : Ledger.LState) (key : String)
    (entry : Ledger.ResultEntry) (hA : Ledger.AInv cid pid s) :
    Ledger.StepOut cid pid (Ledger.onResultKey s key entry).1
      (Ledger.onResultKey s key entry).2 := by
  unfold Ledger.onResultKey
  by_cases h1 : Ledger.trackedCommands.contains key = true
  · rw [if_pos h1]
    cases hk : Pgc.getKey s.tracking (key ++ "-" ++ entry.address) with
    | some pid' =>
      cases hsucc : entry.success <;> simp only [if_true, if_false, Bool.false_eq_true]
      · exact settleP_stepOut s pid' _ hA
      · exact settleP_stepOut s pid' _ hA
    | none => exact Or.inl ⟨hA, rfl, by simp⟩
  · rw [if_neg h1]
    by_cases h2 : key = "isyresponse"
    · rw [if_pos h2]
      exact Or.inl ⟨hA, rfl, by simp⟩
    · rw [if_neg h2]
      by_cases h3 : Ledger.resultIgnoredKeys.contains key = true
      · rw [if_pos h3]
        exact Or.inl ⟨hA, rfl, by simp⟩
      · rw [if_neg h3]
        exact Or.inl ⟨hA, rfl, by simp⟩

theorem onResult_stepOut {cid pid : Nat} (content : List (String × Ledger.ResultEntry))
    (s : Ledger.LState) (hA : Ledger.AInv cid pid s) :
    Ledger.StepOut cid pid (Ledger.onResult s content).1 (Ledger.onResult s content).2 := by
  induction content generalizing s with
  | nil => exact Or.inl ⟨hA, rfl, by simp [Ledger.onResult]⟩
  | cons kv rest ih =>
    rw [onResult_cons]
    exact stepOut_compose (onResultKey_stepOut s kv.1 kv.2 hA) (fun hA' => ih _ hA')

theorem step_stepOut {cid pid : Nat} (s : Ledger.LState) (a : Ledger.Act)
    (hA : Ledger.AInv cid pid s)
    (hfresh : ∀ c, a = Ledger.Act.call c → ¬ c.cid = cid) :
    Ledger.StepOut cid pid (Ledger.step s a).1 (Ledger.step s a).2 := by
  cases a with
  | call c =>
    have hcid : ¬ c.cid = cid := hfresh c rfl
    have hrb : Ledger.StepOut cid pid (Ledger.runBody s c).1 (Ledger.runBody s c).2 := by
      refine Or.inl ⟨runBody_AInv c hA, ?_, ?_⟩
      · rcases runBody_evs s c with h | h <;> rw [h] <;>
          simp [Ledger.noPubCid, Ledger.pubOf, hcid]
      · rcases runBody_evs s c with h | h <;> rw [h] <;> simp
    cases hk : Pgc.getKey s.tracking c.key with
    | some pid' =>
      by_cases hg : Ledger.getP s.promises pid' = Ledger.PStatus.pending
      · have hstep : Ledger.step s (Ledger.Act.call c)
            = ({ s with waiters := s.waiters ++ [(pid', c)] }, []) := by
          simp only [Ledger.step, hk]
          rw [if_pos hg]
        rw [hstep]
        left
        refine ⟨⟨hA.1, ?_⟩, rfl, by simp⟩
        intro w hw hwc
        rcases List.mem_append.mp hw with hmem | hmem
        · exact hA.2 w hmem hwc
        · rcases List.mem_singleton.mp hmem with rfl
          exact absurd hwc hcid
      · have hstep : Ledger.step s (Ledger.Act.call c) = Ledger.runBody s c := by
          simp only [Ledger.step, hk]
          rw [if_neg hg]
        rw [hstep]
        exact hrb
    | none =>
      have hstep : Ledger.step s (Ledger.Act.call c) = Ledger.runBody s c := by
        simp only [Ledger.step, hk]
      rw [hstep]
      exact hrb
  | result content => exact onResult_stepOut content s hA
  | timeoutFire pid' =>
    simp only [Ledger.step]
    by_cases harm : s.timeoutArmed.contains pid' = true
    · rw [if_pos harm]
      exact settleP_stepOut s pid' _ hA
    · rw [if_neg harm]
      exact Or.inl ⟨hA, rfl, by simp⟩

theorem run_stepOut {cid pid : Nat} (as : List Ledger.Act) (s : Ledger.LState)
    (hA : Ledger.AInv cid pid s)
    (hfresh : ∀ c, Ledger.Act.call c ∈ as → ¬ c.cid = cid) :
    Ledger.StepOut cid pid (Ledger.run s as).1 (Ledger.run s as).2 := by
  induction as generalizing s with
  | nil => exact Or.inl ⟨hA, rfl, by simp [Ledger.run]⟩
  | cons a as ih =>
    have h1 : ∀ c, a = Ledger.Act.call c → ¬ c.cid = cid := fun c hc =>
      hfresh c (by rw [← hc]; exact List.mem_cons_self _ _)
    have h2 : ∀ c, Ledger.Act.call c ∈ as → ¬ c.cid = cid := fun c hc =>
      hfresh c (List.mem_cons_of_mem _ hc)
    rw [run_cons]
    exact stepOut_compose (step_stepOut s a hA h1) (fun hA' => ih _ hA' h2)

/-! Claim C2 (corrected): a call overlapping a pending request for its key
does not publish until that request settles; but several overlapping
calls all await the same prior request, so more than one request per key
can be in flight after it settles. -/

/-- C2 amended: if `sendMessageAsync` is called while the promise tracked
for its key is still pending, then in any continuation of the run every
publish of that call's payload occurs strictly after the settlement of
the tracked promise. -/
theorem c2_amended (s : Ledger.LState) (c : Ledger.Call) (pid : Nat) (as : List Ledger.Act)
    (htrack : Pgc.getKey s.tracking c.key = some pid)
    (hpend : Ledger.getP s.promises pid = Ledger.PStatus.pending)
    (hW : ∀ w ∈ s.waiters, ¬ w.2.cid = c.cid)
    (hAs : ∀ c2, Ledger.Act.call c2 ∈ as → ¬ c2.cid = c.cid) :
    Ledger.noPubBeforeSettle c.cid pid (Ledger.run s (Ledger.Act.call c :: as)).2 = true := by
  have hstep : Ledger.step s (Ledger.Act.call c)
      = ({ s with waiters := s.waiters ++ [(pid, c)] }, []) := by
    simp only [Ledger.step, htrack]
    rw [if_pos hpend]
  rw [run_cons, hstep]
  have hA : Ledger.AInv c.cid pid { s with waiters := s.waiters ++ [(pid, c)] } := by
    refine ⟨hpend, ?_⟩
    intro w hw hwc
    rcases List.mem_append.mp hw with h1 | h1
    · exact absurd hwc (hW w h1)
    · rcases List.mem_singleton.mp h1 with rfl
      rfl
  have hout := run_stepOut as _ hA hAs
  rcases hout with ⟨_, hnc, _⟩ | ⟨hb, _⟩
  · simpa using nPBS_of_noPubCid _ _ _ hnc
  · simpa using hb

/-- C2 counterexample to the at-most-one-in-flight part: three calls for
the same key overlap; the second and third both await the first request,
and when its result arrives they both publish, leaving two published
pending requests for the key at once.  (The FIFO publish order is visible
in the trace.) -/
theorem c2_counterexample :
    (Ledger.run ledgerInit c2acts).1.promises
        = [Ledger.PStatus.resolved "ok", Ledger.PStatus.pending, Ledger.PStatus.pending]
    ∧ Ledger.pendingCount (Ledger.run ledgerInit c2acts).1 = 2
    ∧ (Ledger.run ledgerInit c2acts).2 =
        [Ledger.Ev.published 1 "m1", Ledger.Ev.settled 0,
         Ledger.Ev.published 2 "m2", Ledger.Ev.published 3 "m3"] := by
  decide

/-- C2 amended witness: one request pending for the key, a second call
arrives, then the result for the first settles it; the second call's
publish appears after the settlement in the trace. -/
theorem c2_amended_witness :
    Pgc.getKey pendingOne.tracking (mkCall 2 "m2").key = some 0
    ∧ Ledger.getP pendingOne.promises 0 = Ledger.PStatus.pending
    ∧ Ledger.noPubBeforeSettle (mkCall 2 "m2").cid 0
        (Ledger.run pendingOne
          (Ledger.Act.call (mkCall 2 "m2") ::
            [Ledger.Act.result [("addnode",
              { address := "a1", success := true, reason := "ok" })]])).2 = true :=
  ⟨by decide, by decide,
    c2_amended pendingOne (mkCall 2 "m2") 0
      [Ledger.Act.result [("addnode", { address := "a1", success := true, reason := "ok" })]]
      (by decide) (by decide) (by decide)
      (by intro c2 hc; simp at hc)⟩

/-! Claim C3 (corrected): the timeout rejects with a timeout-classified
error and the promise settles exactly once, but the ledger entry is not
removed — `_messageAsyncTracking` keeps the settled tracker. -/

/-- C3 counterexample: after a correlated send whose timeout fires, the
promise is rejected with the timeout error, yet the ledger entry for the
key is still present (it is never deleted), contradicting the claimed
removal. -/
theorem c3_counterexample :
    Pgc.getKey (Ledger.run ledgerInit c3acts).1.tracking "addnode-a1" = some 0
    ∧ Ledger.getP (Ledger.run ledgerInit c3acts).1.promises 0
        = Ledger.PStatus.rejected (Ledger.JsVal.err Ledger.timeoutError)
    ∧ ¬ Pgc.getKey (Ledger.run ledgerInit c3acts).1.tracking "addnode-a1" = none := by
  decide

/-- C3 amended: when the armed timeout of a pending tracked request fires,
the promise is rejected with the error named `timeout` (distinguishable
from a generic error), the request settles exactly once (any further
settlement attempt is a no-op), but the ledger entry is not removed: the
key still maps to the now-settled tracker. -/
theorem c3_amended (s : Ledger.LState) (k : String) (pid : Nat)
    (htrack : Pgc.getKey s.tracking k = some pid)
    (hpend : Ledger.getP s.promises pid = Ledger.PStatus.pending)
    (harm : s.timeoutArmed.contains pid = true)
    (hw : ∀ w ∈ s.waiters, ¬ w.1 = pid) :
    Ledger.getP (Ledger.step s (Ledger.Act.timeoutFire pid)).1.promises pid
        = Ledger.PStatus.rejected (Ledger.JsVal.err Ledger.timeoutError)
    ∧ Ledger.timeoutError.name = "timeout"
    ∧ Pgc.getKey (Ledger.step s (Ledger.Act.timeoutFire pid)).1.tracking k = some pid
    ∧ ∀ st, Ledger.settleP (Ledger.step s (Ledger.Act.timeoutFire pid)).1 pid st
        = ((Ledger.step s (Ledger.Act.timeoutFire pid)).1, []) := by
  have hflt : s.waiters.filter (fun w => w.1 == pid) = [] := by
    rw [List.filter_eq_nil_iff]
    intro w hwmem
    simp [hw w hwmem]
  have hstep : Ledger.step s (Ledger.Act.timeoutFire pid)
      = Ledger.settleP s pid (Ledger.PStatus.rejected (Ledger.JsVal.err Ledger.timeoutError)) := by
    simp only [Ledger.step]
    rw [if_pos harm]
  have heq := settleP_pending_eq s pid
    (Ledger.PStatus.rejected (Ledger.JsVal.err Ledger.timeoutError)) hpend
  rw [hflt] at heq
  have hget : Ledger.getP (Ledger.step s (Ledger.Act.timeoutFire pid)).1.promises pid
      = Ledger.PStatus.rejected (Ledger.JsVal.err Ledger.timeoutError) := by
    rw [hstep]
    exact settleP_getP_self s pid _ hpend
  refine ⟨hget, rfl, ?_, ?_⟩
  · rw [hstep, heq]
    exact htrack
  · intro st
    apply settleP_not_pending
    rw [hget]
    intro hh
    cases hh

/-- C3 amended witness: the single pending request for `addnode-a1` whose
timeout fires. -/
theorem c3_amended_witness :
    Pgc.getKey pendingOne.tracking "addnode-a1" = some 0
    ∧ (Ledger.getP (Ledger.step pendingOne (Ledger.Act.timeoutFire 0)).1.promises 0
        = Ledger.PStatus.rejected (Ledger.JsVal.err Ledger.timeoutError)
      ∧ Ledger.timeoutError.name = "timeout"
      ∧ Pgc.getKey (Ledger.step pendingOne (Ledger.Act.timeoutFire 0)).1.tracking "addnode-a1"
          = some 0
      ∧ ∀ st, Ledger.settleP (Ledger.step pendingOne (Ledger.Act.timeoutFire 0)).1 0 st
          = ((Ledger.step pendingOne (Ledger.Act.timeoutFire 0)).1, [])) :=
  ⟨by decide,
    c3_amended pendingOne "addnode-a1" 0 (by decide) (by decide) (by decide) (by decide)⟩

/-! Claim C7 (confirmed): matching result envelopes settle the tracked
request with the reason. -/

/-- C7: with a request pending under key `addnode-<address>`, processing
the result envelope entry `{addnode: {address, success: true, reason}}`
resolves the tracked promise with the reason string; with
`success: false` it rejects it with the reason string. -/
theorem c7_result_resolution (s : Ledger.LState) (address reason : String) (pid : Nat)
    (htrack : Pgc.getKey s.tracking ("addnode-" ++ address) = some pid)
    (hpend : Ledger.getP s.promises pid = Ledger.PStatus.pending) :
    Ledger.getP (Ledger.step s (Ledger.Act.result
        [("addnode", { address := address, success := true, reason := reason })])).1.promises pid
      = Ledger.PStatus.resolved reason
    ∧ Ledger.getP (Ledger.step s (Ledger.Act.result
        [("addnode", { address := address, success := false, reason := reason })])).1.promises pid
      = Ledger.PStatus.rejected (Ledger.JsVal.str reason) := by
  have htrack2 : Pgc.getKey s.tracking ("addnode" ++ "-" ++ address) = some pid := htrack
  constructor
  · have h1 : Ledger.onResultKey s "addnode"
        { address := address, success := true, reason := reason }
        = Ledger.settleP s pid (Ledger.PStatus.resolved reason) := by
      unfold Ledger.onResultKey
      rw [if_pos (by decide : Ledger.trackedCommands.contains "addnode" = true), htrack2]
      rfl
    show Ledger.getP (Ledger.onResult s _).1.promises pid = _
    rw [onResult_cons, h1]
    exact settleP_getP_self s pid _ hpend
  · have h1 : Ledger.onResultKey s "addnode"
        { address := address, success := false, reason := reason }
        = Ledger.settleP s pid (Ledger.PStatus.rejected (Ledger.JsVal.str reason)) := by
      unfold Ledger.onResultKey
      rw [if_pos (by decide : Ledger.trackedCommands.contains "addnode" = true), htrack2]
      rfl
    show Ledger.getP (Ledger.onResult s _).1.promises pid = _
    rw [onResult_cons, h1]
    exact settleP_getP_self s pid _ hpend

/-- C7 witness at the spec's concrete scenario: the tracked request for
`addnode-a1` resolves with `"ok"` on success and rejects with `"ok"` on
failure. -/
theorem c7_witness :
    Pgc.getKey pendingOne.tracking ("addnode-" ++ "a1") = some 0
    ∧ (Ledger.getP (Ledger.step pendingOne
          (Ledger.Act.result [("addnode",
            { address := "a1", success := true, reason := "ok" })])).1.promises 0
        = Ledger.PStatus.resolved "ok"
      ∧ Ledger.getP (Ledger.step pendingOne
          (Ledger.Act.result [("addnode",
            { address := "a1", success := false, reason := "ok" })])).1.promises 0
        = Ledger.PStatus.rejected (Ledger.JsVal.str "ok")) :=
  ⟨by decide, c7_result_resolution pendingOne "a1" "ok" 0 (by decide) (by decide)⟩

/-! Claim C8 (confirmed): a disconnected correlated send with no pending
prior rejects immediately and publishes nothing. -/

/-- C8: when the interface is not connected and no prior request for the
key is pending, `sendMessageAsync` rejects immediately with the
connectivity error (the new tracker promise is born rejected), nothing
is published, and the tracker is still stored under the key. -/
theorem c8_disconnected_reject (s : Ledger.LState) (c : Ledger.Call)
    (hconn : s.connected = false)
    (hfree : ∀ pid, Pgc.getKey s.tracking c.key = some pid →
        ¬ Ledger.getP s.promises pid = Ledger.PStatus.pending) :
    Ledger.step s (Ledger.Act.call c)
      = ({ s with
            promises := s.promises ++ [Ledger.PStatus.rejected (Ledger.JsVal.err Ledger.connError)],
            tracking := Pgc.setKey s.tracking c.key s.promises.length },
         [Ledger.Ev.rejectedNoConn c.cid])
    ∧ Ledger.connError.message = "Polyglot not connected"
    ∧ ((Ledger.step s (Ledger.Act.call c)).2.all (fun e =>
        match e with
        | Ledger.Ev.published _ _ => false
        | _ => true)) = true := by
  have hrb : Ledger.runBody s c
      = ({ s with
            promises := s.promises ++ [Ledger.PStatus.rejected (Ledger.JsVal.err Ledger.connError)],
            tracking := Pgc.setKey s.tracking c.key s.promises.length },
         [Ledger.Ev.rejectedNoConn c.cid]) := by
    unfold Ledger.runBody
    rw [if_neg (by rw [hconn]; intro hh; cases hh)]
  have hstep : Ledger.step s (Ledger.Act.call c)
      = ({ s with
            promises := s.promises ++ [Ledger.PStatus.rejected (Ledger.JsVal.err Ledger.connError)],
            tracking := Pgc.setKey s.tracking c.key s.promises.length },
         [Ledger.Ev.rejectedNoConn c.cid]) := by
    cases hk : Pgc.getKey s.tracking c.key with
    | some pid =>
      simp only [Ledger.step, hk]
      rw [if_neg (hfree pid hk)]
      exact hrb
    | none =>
      simp only [Ledger.step, hk]
      exact hrb
  refine ⟨hstep, rfl, ?_⟩
  rw [hstep]
  rfl

/-- C8 witness: a disconnected ledger with no tracked requests. -/
theorem c8_witness :
    disconnectedInit.connected = false
    ∧ (Ledger.step disconnectedInit (Ledger.Act.call (mkCall 1 "m1"))
        = ({ disconnectedInit with
              promises := [Ledger.PStatus.rejected (Ledger.JsVal.err Ledger.connError)],
              tracking := [("addnode-a1", 0)] },
           [Ledger.Ev.rejectedNoConn 1])
      ∧ Ledger.connError.message = "Polyglot not connected"
      ∧ ((Ledger.step disconnectedInit (Ledger.Act.call (mkCall 1 "m1"))).2.all (fun e =>
          match e with
          | Ledger.Ev.published _ _ => false
          | _ => true)) = true) := by
  have h := c8_disconnected_reject disconnectedInit (mkCall 1 "m1") (by decide)
    (by intro pid hk; simp [Pgc.getKey] at hk)
  exact ⟨by decide, by rw [h.1]; decide, h.2.1, h.2.2⟩

/-! Claim C1 (corrected): counterexample. -/

/-- C1 counterexample: with the loop counter already at 30, applying a
31st snapshot that contains a new node of a registered class does create
the device record and does replace the stored configuration — only the
`config` event is suppressed, so the snapshot is not dropped entirely as
claimed. -/
theorem c1_counterexample :
    (Pgc.getKey (Recon.onConfig c1State c1Snapshot false).1.nodes "a1").isSome = true
    ∧ (Recon.onConfig c1State c1Snapshot false).1.config.nodes = c1Snapshot.nodes
    ∧ ((Recon.onConfig c1State c1Snapshot false).2.all (fun e =>
        match e with
        | Recon.Ev.emitConfig _ _ => false
        | _ => true)) = true := by
  decide

/-! Claim C4 (code bug): the removal pass is skipped whenever the snapshot
and the registry have the same number of keys, which happens precisely
when the snapshot trades a removed address for one with an unregistered
definition class. -/

/-- C4 divergence witnessed: the registry holds `a1`; the snapshot no
longer contains `a1` but has one entry whose class is unregistered.  The
accepted snapshot leaves `a1` in the registry and logs no removal, while
the claim (and the comment above the removal loop) requires `a1` to be
deleted with a removal log. -/
theorem c4_code_bug :
    Pgc.getKey (Recon.onConfig c4State c4Snapshot false).1.nodes "a1" = some c4Dev
    ∧ Pgc.getKey c4Snapshot.nodes "a1" = none
    ∧ ((Recon.onConfig c4State c4Snapshot false).2.all (fun e =>
        match e with
        | Recon.Ev.logRemoved _ => false
        | _ => true)) = true := by
  decide

/-! Claim C5 (corrected): `_setParamsDetected` only scans the keys of the
new mapping, so a removed key is not detected. -/

/-- C5 counterexample: removing the only custom parameter leaves the flag
false although the two mappings differ. -/
theorem c5_counterexample :
    Recon.setParamsDetected (some [("a", "1")]) (some []) = false
    ∧ ¬ Pgc.getKey [("a", "1")] "a" = Pgc.getKey ([] : List (String × String)) "a" := by
  decide

/-- C5 amended: the flag is true exactly when some key of the new mapping
is absent from the old mapping or carries a different value there; pure
removals are not detected. -/
theorem c5_amended (oldP newP : List (String × String))
    (hnodup : (newP.map Prod.fst).Nodup) :
    Recon.setParamsDetected (some oldP) (some newP) = true ↔
      ∃ k v, (k, v) ∈ newP ∧ ¬ Pgc.getKey oldP k = some v := by
  have hEq : Recon.setParamsDetected (some oldP) (some newP) =
      (((newP.map Prod.fst).filter (fun key =>
        !((oldP.map Prod.fst).contains key &&
          Pgc.getKey oldP key == Pgc.getKey newP key))).length != 0) := rfl
  rw [hEq, filter_length_ne_zero_iff]
  constructor
  · rintro ⟨k, hkmem, hpred⟩
    rcases List.mem_map.mp hkmem with ⟨⟨k1, v⟩, hxmem, hxk⟩
    subst hxk
    refine ⟨k1, v, hxmem, ?_⟩
    intro hold
    have hnew : Pgc.getKey newP k1 = some v := getKey_of_mem_nodup hnodup hxmem
    have hcont : (oldP.map Prod.fst).contains k1 = true :=
      contains_eq_true_of_mem ((mem_keys_iff_isSome oldP k1).mpr (by rw [hold]; rfl))
    rw [hcont, hold, hnew] at hpred
    simp at hpred
  · rintro ⟨k, v, hmem, hne⟩
    refine ⟨k, List.mem_map.mpr ⟨(k, v), hmem, rfl⟩, ?_⟩
    have hnew : Pgc.getKey newP k = some v := getKey_of_mem_nodup hnodup hmem
    rw [hnew]
    by_cases hc : (oldP.map Prod.fst).contains k = true
    · rw [hc]
      cases hval : Pgc.getKey oldP k with
      | none => simp
      | some v' =>
        have hvne : ¬ v' = v := fun hh => hne (by rw [hval, hh])
        simp [hvne]
    · rw [Bool.not_eq_true] at hc
      simp [hc]
      exact Or.inr hne

/-- C5 amended witness at a concrete input: the old mapping binds `a`, the
new one binds `b`, so the flag is true by the added key `b`. -/
theorem c5_amended_witness :
    ([("b", "2")].map (Prod.fst (α := String) (β := String))).Nodup
    ∧ (Recon.setParamsDetected (some [("a", "1")]) (some [("b", "2")]) = true ↔
        ∃ k v, (k, v) ∈ [("b", "2")] ∧ ¬ Pgc.getKey [("a", "1")] k = some v) :=
  ⟨by decide, c5_amended [("a", "1")] [("b", "2")] (by decide)⟩

/-! Claim C6 (corrected): a changed poll period always arms a timer, even
when the new period is zero. -/

/-- C6 counterexample: on the first-ever assignment of a short-poll period
of zero, the code arms a repeating timer (with a zero-second delay
handed to `setInterval`), while the claim requires no timer. -/
theorem c6_counterexample :
    ¬ (Recon.checkPollingInterval baseState Recon.PollClass.short (some 0)).1.shortPollTimer = none
    ∧ Recon.Ev.armTimer Recon.PollClass.short (some 0)
        ∈ (Recon.checkPollingInterval baseState Recon.PollClass.short (some 0)).2 := by
  decide

/-- C6 amended: whenever the new period differs from the stored one, the
previous timer (if any) is cancelled, the value is stored, and a new
repeating timer is always armed — a period of zero (or an unset value
differing from the stored one) does not disable polling. -/
theorem c6_amended (s : Recon.IState) (p : Recon.PollClass) (v : Option Nat)
    (h : ¬ Recon.pollValue s p = v) :
    Recon.pollTimer (Recon.checkPollingInterval s p v).1 p = some v
    ∧ Recon.pollValue (Recon.checkPollingInterval s p v).1 p = v
    ∧ (Recon.checkPollingInterval s p v).2 =
        (match Recon.pollTimer s p with
         | some _ => [Recon.Ev.clearTimer p]
         | none => []) ++ [Recon.Ev.armTimer p v] := by
  unfold Recon.checkPollingInterval
  rw [if_pos h]
  cases p <;>
    simp [Recon.pollValue, Recon.pollTimer, Recon.setPollValue, Recon.setPollTimer]

/-- C6 amended witness: changing the short-poll period from unset to zero
arms a timer with period zero. -/
theorem c6_amended_witness :
    ¬ Recon.pollValue baseState Recon.PollClass.short = some 0
    ∧ (Recon.pollTimer (Recon.checkPollingInterval baseState Recon.PollClass.short (some 0)).1
          Recon.PollClass.short = some (some 0)
      ∧ Recon.pollValue (Recon.checkPollingInterval baseState Recon.PollClass.short (some 0)).1
          Recon.PollClass.short = some 0
      ∧ (Recon.checkPollingInterval baseState Recon.PollClass.short (some 0)).2 =
          (match Recon.pollTimer baseState Recon.PollClass.short with
           | some _ => [Recon.Ev.clearTimer Recon.PollClass.short]
           | none => []) ++ [Recon.Ev.armTimer Recon.PollClass.short (some 0)]) :=
  ⟨by decide, c6_amended baseState Recon.PollClass.short (some 0) (by decide)⟩

/-! Claim C9 (confirmed): the `!node instanceof Node` guard never fires. -/

/-- C9: the guard condition `(!node) instanceof Node` is false for every
value, so `addNode` and `delNode` never take their error branch and
proceed to build and hand off their message for every node-shaped
argument, whether or not it is an instance of the `Node` class. -/
theorem c9_instanceof_guard (v : JsSem.JsValue) (o : JsSem.NodeObj)
    (hshape : JsSem.isNodeShaped v = some o) :
    (∀ w : JsSem.JsValue, JsSem.instanceofNode (JsSem.jsNot w) = false)
    ∧ JsSem.addNode v = JsSem.AddNodeOutcome.sent ("addnode-" ++ o.address)
        { address := o.address, name := o.name, nodedefid := o.id,
          primary := o.primary, isController := o.isController,
          drivers := o.drivers,
          hint := match o.hint with
            | some h => if h != "" then some h else none
            | none => none }
    ∧ JsSem.delNode v = JsSem.DelNodeOutcome.sent (some o.address) := by
  refine ⟨fun w => by cases w <;> rfl, ?_, ?_⟩ <;>
    cases v <;>
      simp_all [JsSem.addNode, JsSem.delNode, JsSem.isNodeShaped,
        JsSem.jsNot, JsSem.truthy, JsSem.instanceofNode, JsSem.convertDriversObj,
        JsSem.jsFieldAddress]

/-- C9 witness: an object of a foreign class (not an instance of `Node`)
with the node fields still passes the guard, and both methods build and
hand off their message for it. -/
theorem c9_witness :
    JsSem.isNodeShaped (JsSem.JsValue.foreignObj
      { address := "a1", name := "X", id := "D1", primary := "a1",
        isController := false, drivers := [], hint := none, driversConverted := false })
      = some { address := "a1", name := "X", id := "D1", primary := "a1",
               isController := false, drivers := [], hint := none, driversConverted := false }
    ∧ ((∀ w : JsSem.JsValue, JsSem.instanceofNode (JsSem.jsNot w) = false)
      ∧ JsSem.addNode (JsSem.JsValue.foreignObj
          { address := "a1", name := "X", id := "D1", primary := "a1",
            isController := false, drivers := [], hint := none, driversConverted := false })
          = JsSem.AddNodeOutcome.sent ("addnode-" ++ "a1")
            { address := "a1", name := "X", nodedefid := "D1", primary := "a1",
              isController := false, drivers := [], hint := none }
      ∧ JsSem.delNode (JsSem.JsValue.foreignObj
          { address := "a1", name := "X", id := "D1", primary := "a1",
            isController := false, drivers := [], hint := none, driversConverted := false })
          = JsSem.DelNodeOutcome.sent (some "a1")) :=
  ⟨rfl, c9_instanceof_guard
    (JsSem.JsValue.foreignObj
      { address := "a1", name := "X", id := "D1", primary := "a1",
        isController := false, drivers := [], hint := none, driversConverted := false })
    { address := "a1", name := "X", id := "D1", primary := "a1",
      isController := false, drivers := [], hint := none, driversConverted := false }
    rfl⟩

/-! Claim C10 (confirmed): `stop()` frame conditions and the role of the
shutting-down flag. -/

/-- C10: the public `stop()` publishes the `{connected:false}` presence
message, ends the MQTT client and cancels both poll timers but leaves the
shutting-down flag unchanged; only the inbound `stop` / `delete` keys set
the flag; a set flag is exactly what makes `_onMessageQueued` drop
dequeued items (log only, no state change) and poll ticks emit nothing. -/
theorem c10_stop_frame (s : Recon.IState) (k : String) (item : Recon.QItem) (b : Bool)
    (hk1 : ¬ k = "stop") (hk2 : ¬ k = "delete") :
    (Recon.stop s).1.shuttingDown = s.shuttingDown
    ∧ (Recon.stop s).1.shortPollTimer = none
    ∧ (Recon.stop s).1.longPollTimer = none
    ∧ (Recon.stop s).2 = [Recon.Ev.sendConnected false, Recon.Ev.mqttEnd]
    ∧ (Recon.onMessageKey s k).1.shuttingDown = s.shuttingDown
    ∧ (Recon.onMessageKey s "stop").1.shuttingDown = true
    ∧ (Recon.onMessageKey s "delete").1.shuttingDown = true
    ∧ (s.shuttingDown = true →
        Recon.onMessageQueued s item
          = (s, [Recon.Ev.logShuttingDownIgnored (Recon.itemKey item)]))
    ∧ (s.shuttingDown = true → Recon.pollTick s b = [])
    ∧ (s.shuttingDown = false → Recon.pollTick s b = [Recon.Ev.emitPoll b]) := by
  refine ⟨rfl, rfl, rfl, rfl, ?_, by simp [Recon.onMessageKey], by simp [Recon.onMessageKey],
    ?_, ?_, ?_⟩
  · simp only [Recon.onMessageKey]
    split_ifs <;> simp_all
  · intro hsd
    simp [Recon.onMessageQueued, hsd]
  · intro hsd
    simp [Recon.pollTick, hsd]
  · intro hsd
    simp [Recon.pollTick, hsd]

/-! Reconciliation lemmas for the amended loop-guard claim: the registry
and configuration mutations of `_onConfig` happen whether or not the loop
guard trips; only the event emission differs. -/

theorem nodesPass_cons (classes : List String) (nodes : List (String × Recon.DeviceNode))
    (e : String × Recon.ConfigNode) (rest : List (String × Recon.ConfigNode)) :
    Recon.nodesPass classes nodes (e :: rest) =
      ((Recon.nodesPass classes (Recon.nodesPassStep classes nodes e).1 rest).1,
       (Recon.nodesPassStep classes nodes e).2
         ++ (Recon.nodesPass classes (Recon.nodesPassStep classes nodes e).1 rest).2) := rfl

theorem removalLoop_cons (cfgNodes : List (String × Recon.ConfigNode))
    (acc : List (String × Recon.DeviceNode)) (e : String × Recon.DeviceNode)
    (rest : List (String × Recon.DeviceNode)) :
    Recon.removalLoop cfgNodes acc (e :: rest) =
      (match Pgc.getKey cfgNodes e.1 with
       | some _ => Recon.removalLoop cfgNodes acc rest
       | none =>
         ((Recon.removalLoop cfgNodes (Pgc.delKey acc e.1) rest).1,
          Recon.Ev.logRemoved e.1
            :: (Recon.removalLoop cfgNodes (Pgc.delKey acc e.1) rest).2)) := rfl

theorem nodesPassStep_mono (classes : List String) (nodes : List (String × Recon.DeviceNode))
    (e : String × Recon.ConfigNode) (a : String)
    (h : (Pgc.getKey nodes a).isSome = true) :
    (Pgc.getKey (Recon.nodesPassStep classes nodes e).1 a).isSome = true := by
  unfold Recon.nodesPassStep
  cases hk : Pgc.getKey nodes e.1 with
  | none =>
    by_cases hc : classes.contains e.2.nodedefid = true
    · rw [if_pos hc]
      exact isSome_getKey_setKey _ _ _ _ h
    · rw [if_neg hc]
      exact h
  | some node => exact isSome_getKey_setKey _ _ _ _ h

theorem nodesPass_mono (classes : List String) (l : List (String × Recon.ConfigNode))
    (nodes : List (String × Recon.DeviceNode)) (a : String)
    (h : (Pgc.getKey nodes a).isSome = true) :
    (Pgc.getKey (Recon.nodesPass classes nodes l).1 a).isSome = true := by
  induction l generalizing nodes with
  | nil => exact h
  | cons e rest ih =>
    rw [nodesPass_cons]
    exact ih _ (nodesPassStep_mono classes nodes e a h)

theorem nodesPassStep_creates (classes : List String)
    (nodes : List (String × Recon.DeviceNode)) (addr : String) (n : Recon.ConfigNode)
    (hc : classes.contains n.nodedefid = true) :
    (Pgc.getKey (Recon.nodesPassStep classes nodes (addr, n)).1 addr).isSome = true := by
  unfold Recon.nodesPassStep
  cases hk : Pgc.getKey nodes addr with
  | none =>
    rw [if_pos hc]
    rw [getKey_setKey_self]
    rfl
  | some node =>
    rw [getKey_setKey_self]
    rfl

theorem nodesPass_mem (classes : List String) (l : List (String × Recon.ConfigNode))
    (nodes : List (String × Recon.DeviceNode)) (addr : String) (n : Recon.ConfigNode)
    (hmem : (addr, n) ∈ l) (hc : classes.contains n.nodedefid = true) :
    (Pgc.getKey (Recon.nodesPass classes nodes l).1 addr).isSome = true := by
  induction l generalizing nodes with
  | nil => cases hmem
  | cons e rest ih =>
    rw [nodesPass_cons]
    rcases List.mem_cons.mp hmem with h1 | h1
    · rw [← h1]
      exact nodesPass_mono classes rest _ addr
        (nodesPassStep_creates classes nodes addr n hc)
    · exact ih _ h1

theorem removalLoop_keeps (cfgNodes : List (String × Recon.ConfigNode))
    (l : List (String × Recon.DeviceNode)) (acc : List (String × Recon.DeviceNode))
    (addr : String)
    (hin : (Pgc.getKey cfgNodes addr).isSome = true)
    (hacc : (Pgc.getKey acc addr).isSome = true) :
    (Pgc.getKey (Recon.removalLoop cfgNodes acc l).1 addr).isSome = true := by
  induction l generalizing acc with
  | nil => exact hacc
  | cons e rest ih =>
    rw [removalLoop_cons]
    cases hk : Pgc.getKey cfgNodes e.1 with
    | some x => exact ih acc hacc
    | none =>
      have hne : ¬ addr = e.1 := by
        intro hh
        rw [hh, hk] at hin
        cases hin
      refine ih (Pgc.delKey acc e.1) ?_
      rw [getKey_delKey_ne acc e.1 addr hne]
      exact hacc

theorem removalPass_keeps (cfgNodes : List (String × Recon.ConfigNode))
    (nodes : List (String × Recon.DeviceNode)) (addr : String)
    (hin : (Pgc.getKey cfgNodes addr).isSome = true)
    (hnodes : (Pgc.getKey nodes addr).isSome = true) :
    (Pgc.getKey (Recon.removalPass cfgNodes nodes).1 addr).isSome = true := by
  unfold Recon.removalPass
  by_cases hl : cfgNodes.length = nodes.length
  · rw [if_pos hl]
    exact hnodes
  · rw [if_neg hl]
    exact removalLoop_keeps cfgNodes nodes nodes addr hin hnodes

theorem nodesPassStep_evs (classes : List String) (nodes : List (String × Recon.DeviceNode))
    (e : String × Recon.ConfigNode) :
    ∀ ev ∈ (Recon.nodesPassStep classes nodes e).2,
      ∃ a, ev = Recon.Ev.logInvalidClass a := by
  unfold Recon.nodesPassStep
  cases hk : Pgc.getKey nodes e.1 with
  | none =>
    by_cases hc : classes.contains e.2.nodedefid = true
    · rw [if_pos hc]
      intro ev hev
      cases hev
    · rw [if_neg hc]
      intro ev hev
      rcases List.mem_singleton.mp hev with rfl
      exact ⟨e.1, rfl⟩
  | some node =>
    intro ev hev
    cases hev

theorem nodesPass_evs (classes : List String) (l : List (String × Recon.ConfigNode))
    (nodes : List (String × Recon.DeviceNode)) :
    ∀ ev ∈ (Recon.nodesPass classes nodes l).2,
      ∃ a, ev = Recon.Ev.logInvalidClass a := by
  induction l generalizing nodes with
  | nil => intro ev hev; cases hev
  | cons e rest ih =>
    rw [nodesPass_cons]
    intro ev hev
    rcases List.mem_append.mp hev with h | h
    · exact nodesPassStep_evs classes nodes e ev h
    · exact ih _ ev h

theorem removalLoop_evs (cfgNodes : List (String × Recon.ConfigNode))
    (l : List (String × Recon.DeviceNode)) (acc : List (String × Recon.DeviceNode)) :
    ∀ ev ∈ (Recon.removalLoop cfgNodes acc l).2,
      ∃ a, ev = Recon.Ev.logRemoved a := by
  induction l generalizing acc with
  | nil => intro ev hev; cases hev
  | cons e rest ih =>
    rw [removalLoop_cons]
    cases hk : Pgc.getKey cfgNodes e.1 with
    | some x => exact ih acc
    | none =>
      intro ev hev
      rcases List.mem_cons.mp hev with h | h
      · exact ⟨e.1, h⟩
      · exact ih (Pgc.delKey acc e.1) ev h

theorem removalPass_evs (cfgNodes : List (String × Recon.ConfigNode))
    (nodes : List (String × Recon.DeviceNode)) :
    ∀ ev ∈ (Recon.removalPass cfgNodes nodes).2,
      ∃ a, ev = Recon.Ev.logRemoved a := by
  unfold Recon.removalPass
  by_cases hl : cfgNodes.length = nodes.length
  · rw [if_pos hl]
    intro ev hev
    cases hev
  · rw [if_neg hl]
    exact removalLoop_evs cfgNodes nodes nodes

theorem cpi_evs (s : Recon.IState) (p : Recon.PollClass) (v : Option Nat) :
    ∀ ev ∈ (Recon.checkPollingInterval s p v).2,
      ev = Recon.Ev.clearTimer p ∨ ev = Recon.Ev.armTimer p v := by
  unfold Recon.checkPollingInterval
  by_cases h : Recon.pollValue s p ≠ v
  · rw [if_pos h]
    intro ev hev
    cases hpt : Recon.pollTimer s p with
    | some t =>
      rw [hpt] at hev
      rcases List.mem_append.mp hev with h1 | h1
      · exact Or.inl (List.mem_singleton.mp h1)
      · exact Or.inr (List.mem_singleton.mp h1)
    | none =>
      rw [hpt] at hev
      rcases List.mem_append.mp hev with h1 | h1
      · cases h1
      · exact Or.inr (List.mem_singleton.mp h1)
  · rw [if_neg h]
    intro ev hev
    cases hev

theorem cpi_nodes (s : Recon.IState) (p : Recon.PollClass) (v : Option Nat) :
    (Recon.checkPollingInterval s p v).1.nodes = s.nodes := by
  unfold Recon.checkPollingInterval
  by_cases h : Recon.pollValue s p ≠ v
  · rw [if_pos h]
    cases p <;> rfl
  · rw [if_neg h]

theorem cpi_config (s : Recon.IState) (p : Recon.PollClass) (v : Option Nat) :
    (Recon.checkPollingInterval s p v).1.config = s.config := by
  unfold Recon.checkPollingInterval
  by_cases h : Recon.pollValue s p ≠ v
  · rw [if_pos h]
    cases p <;> rfl
  · rw [if_neg h]

theorem cpi_configCounter (s : Recon.IState) (p : Recon.PollClass) (v : Option Nat) :
    (Recon.checkPollingInterval s p v).1.configCounter = s.configCounter := by
  unfold Recon.checkPollingInterval
  by_cases h : Recon.pollValue s p ≠ v
  · rw [if_pos h]
    cases p <;> rfl
  · rw [if_neg h]

theorem cpi_shortValue_set (s : Recon.IState) (v : Option Nat) :
    (Recon.checkPollingInterval s Recon.PollClass.short v).1.shortPollValue = v := by
  unfold Recon.checkPollingInterval
  by_cases h : Recon.pollValue s Recon.PollClass.short ≠ v
  · rw [if_pos h]
    rfl
  · rw [if_neg h]
    rw [Ne, not_not] at h
    exact h

theorem cpi_longValue_set (s : Recon.IState) (v : Option Nat) :
    (Recon.checkPollingInterval s Recon.PollClass.long v).1.longPollValue = v := by
  unfold Recon.checkPollingInterval
  by_cases h : Recon.pollValue s Recon.PollClass.long ≠ v
  · rw [if_pos h]
    rfl
  · rw [if_neg h]
    rw [Ne, not_not] at h
    exact h

theorem cpi_long_keeps_short (s : Recon.IState) (v : Option Nat) :
    (Recon.checkPollingInterval s Recon.PollClass.long v).1.shortPollValue
      = s.shortPollValue := by
  unfold Recon.checkPollingInterval
  by_cases h : Recon.pollValue s Recon.PollClass.long ≠ v
  · rw [if_pos h]
    rfl
  · rw [if_neg h]

/-- C1 amended: once the counter exceeds the threshold, the snapshot is
still fully applied — every snapshot address with a registered class is
present in the registry afterwards, the stored configuration is replaced
by the snapshot, and the poll periods are taken from the snapshot — but
the `config` event is suppressed (the loop log is emitted instead), so
the previous snapshot does not remain authoritative. -/
theorem c1_amended (s : Recon.IState) (cfg : Recon.Config) (init : Bool)
    (addr : String) (n : Recon.ConfigNode)
    (hcount : 30 ≤ s.configCounter)
    (hmem : (addr, n) ∈ cfg.nodes)
    (hclass : s.nodeClasses.contains n.nodedefid = true) :
    (Pgc.getKey (Recon.onConfig s cfg init).1.nodes addr).isSome = true
    ∧ (Recon.onConfig s cfg init).1.config
        = { cfg with newParamsDetected :=
            Recon.setParamsDetected s.config.customParams cfg.customParams }
    ∧ (Recon.onConfig s cfg init).1.shortPollValue = cfg.shortPoll
    ∧ (Recon.onConfig s cfg init).1.longPollValue = cfg.longPoll
    ∧ ((Recon.onConfig s cfg init).2.all (fun e =>
        match e with
        | Recon.Ev.emitConfig _ _ => false
        | _ => true)) = true
    ∧ Recon.Ev.logLoopSkip (s.configCounter + 1) ∈ (Recon.onConfig s cfg init).2 := by
  simp only [Recon.onConfig]
  set p1 := Recon.nodesPass s.nodeClasses s.nodes cfg.nodes with hp1
  set p2 := Recon.removalPass cfg.nodes p1.1 with hp2
  set cfg2 : Recon.Config :=
    { cfg with newParamsDetected :=
        Recon.setParamsDetected s.config.customParams cfg.customParams } with hcfg2
  set s1 : Recon.IState := { s with nodes := p2.1, config := cfg2 } with hs1
  set r2 := Recon.checkPollingInterval s1 Recon.PollClass.short cfg.shortPoll with hr2
  set r3 := Recon.checkPollingInterval r2.1 Recon.PollClass.long cfg.longPoll with hr3
  have hcc : r3.1.configCounter = s.configCounter := by
    rw [hr3, cpi_configCounter, hr2, cpi_configCounter, hs1]
  have hguard : (Recon.detectConfigLoop r3.1).2 = true := by
    show decide (30 < r3.1.configCounter + 1) = true
    rw [hcc]
    exact decide_eq_true (Nat.lt_succ_of_le hcount)
  rw [if_pos hguard]
  have hnodes : (Recon.detectConfigLoop r3.1).1.nodes = p2.1 := by
    show r3.1.nodes = p2.1
    rw [hr3, cpi_nodes, hr2, cpi_nodes, hs1]
  have hconfig : (Recon.detectConfigLoop r3.1).1.config = cfg2 := by
    show r3.1.config = cfg2
    rw [hr3, cpi_config, hr2, cpi_config, hs1]
  have hcounter : (Recon.detectConfigLoop r3.1).1.configCounter = s.configCounter + 1 := by
    show r3.1.configCounter + 1 = s.configCounter + 1
    rw [hcc]
  refine ⟨?_, ?_, ?_, ?_, ?_, ?_⟩
  · rw [hnodes, hp2]
    exact removalPass_keeps cfg.nodes p1.1 addr (isSome_getKey_of_mem hmem)
      (by rw [hp1]; exact nodesPass_mem s.nodeClasses cfg.nodes s.nodes addr n hmem hclass)
  · rw [hconfig, hcfg2]
  · show (Recon.detectConfigLoop r3.1).1.shortPollValue = cfg.shortPoll
    show r3.1.shortPollValue = cfg.shortPoll
    rw [hr3, cpi_long_keeps_short, hr2, cpi_shortValue_set]
  · show r3.1.longPollValue = cfg.longPoll
    rw [hr3, cpi_longValue_set]
  · rw [List.all_eq_true]
    intro e he
    rcases List.mem_append.mp he with he1 | he1
    · rcases List.mem_append.mp he1 with he2 | he2
      · rcases List.mem_append.mp he2 with he3 | he3
        · rcases List.mem_append.mp he3 with he4 | he4
          · obtain ⟨a, rfl⟩ := nodesPass_evs s.nodeClasses cfg.nodes s.nodes e
              (by rw [hp1] at he4; exact he4)
            rfl
          · obtain ⟨a, rfl⟩ := removalPass_evs cfg.nodes p1.1 e (by rw [hp2] at he4; exact he4)
            rfl
        · rcases cpi_evs s1 Recon.PollClass.short cfg.shortPoll e
            (by rw [hr2] at he3; exact he3) with rfl | rfl <;> rfl
      · rcases cpi_evs r2.1 Recon.PollClass.long cfg.longPoll e
          (by rw [hr3] at he2; exact he2) with rfl | rfl <;> rfl
    · rcases List.mem_singleton.mp he1 with rfl
      rfl
  · rw [hcounter]
    exact List.mem_append.mpr (Or.inr (List.mem_singleton.mpr rfl))

/-- C1 amended witness: the concrete 31st snapshot of the counterexample —
the record for `a1` is created, the configuration replaced, and the poll
values taken over, while only the loop log is emitted. -/
theorem c1_amended_witness :
    30 ≤ c1State.configCounter
    ∧ ("a1", c1Node) ∈ c1Snapshot.nodes
    ∧ c1State.nodeClasses.contains c1Node.nodedefid = true
    ∧ ((Pgc.getKey (Recon.onConfig c1State c1Snapshot false).1.nodes "a1").isSome = true
      ∧ (Recon.onConfig c1State c1Snapshot false).1.config
          = { c1Snapshot with newParamsDetected :=
              Recon.setParamsDetected c1State.config.customParams c1Snapshot.customParams }
      ∧ (Recon.onConfig c1State c1Snapshot false).1.shortPollValue = c1Snapshot.shortPoll
      ∧ (Recon.onConfig c1State c1Snapshot false).1.longPollValue = c1Snapshot.longPoll
      ∧ ((Recon.onConfig c1State c1Snapshot false).2.all (fun e =>
          match e with
          | Recon.Ev.emitConfig _ _ => false
          | _ => true)) = true
      ∧ Recon.Ev.logLoopSkip (c1State.configCounter + 1)
          ∈ (Recon.onConfig c1State c1Snapshot false).2) :=
  ⟨by decide, by decide, by decide,
    c1_amended c1State c1Snapshot false "a1" c1Node (by decide) (by decide) (by decide)⟩

/-- C10 witness at concrete inputs: a shutting-down state, the queued key
`config`, and an oauth queue item. -/
theorem c10_witness :
    ¬ ("config" : String) = "stop"
    ∧ ¬ ("config" : String) = "delete"
    ∧ ((Recon.stop { baseState with shuttingDown := true }).1.shuttingDown
          = ({ baseState with shuttingDown := true } : Recon.IState).shuttingDown
      ∧ (Recon.stop { baseState with shuttingDown := true }).1.shortPollTimer = none
      ∧ (Recon.stop { baseState with shuttingDown := true }).1.longPollTimer = none
      ∧ (Recon.stop { baseState with shuttingDown := true }).2
          = [Recon.Ev.sendConnected false, Recon.Ev.mqttEnd]
      ∧ (Recon.onMessageKey { baseState with shuttingDown := true } "config").1.shuttingDown
          = ({ baseState with shuttingDown := true } : Recon.IState).shuttingDown
      ∧ (Recon.onMessageKey { baseState with shuttingDown := true } "stop").1.shuttingDown = true
      ∧ (Recon.onMessageKey { baseState with shuttingDown := true } "delete").1.shuttingDown = true
      ∧ (({ baseState with shuttingDown := true } : Recon.IState).shuttingDown = true →
          Recon.onMessageQueued { baseState with shuttingDown := true } Recon.QItem.oauthItem
            = ({ baseState with shuttingDown := true },
               [Recon.Ev.logShuttingDownIgnored (Recon.itemKey Recon.QItem.oauthItem)]))
      ∧ (({ baseState with shuttingDown := true } : Recon.IState).shuttingDown = true →
          Recon.pollTick { baseState with shuttingDown := true } true = [])
      ∧ (({ baseState with shuttingDown := true } : Recon.IState).shuttingDown = false →
          Recon.pollTick { baseState with shuttingDown := true } true
            = [Recon.Ev.emitPoll true])) :=
  ⟨by decide, by decide,
    c10_stop_frame { baseState with shuttingDown := true } "config" Recon.QItem.oauthItem true
      (by decide) (by decide)⟩

end Pgc
